import Mathlib

/-!
Verification of the caching, session and coordination subsystem of the
deltaglider_commander backend.

The Lean definitions below are shallow embeddings of the Python sources:

* `services/list_cache.py`   — credential-scoped object-listing cache
* `services/catalog.py`      — filter/sort of listings, bucket statistics
* `auth/session_store.py`    — in-memory session store (LRU + idle TTL)
* `auth/filesystem_session_store.py` — filesystem-backed session store
* `jobs/indexer.py`          — savings job runner (single flight per bucket)
* `jobs/purge_scheduler.py`  — cross-process purge leader election
* `util/cache.py`            — cache registry with a pending-jobs set

Modelling conventions:

* Python dicts are association lists (`List (κ × β)`) that preserve
  insertion order, exactly as CPython dicts do; `lookupKey`, `setAssoc`
  and `eraseKey` mirror `d[k]`, `d[k] = v` and `d.pop(k)`.
* Timestamps (`time.time()` and `datetime`) are integers passed
  explicitly to each operation.
* SHA-256 digests are modelled as the string that is hashed: the code
  relies on the digest being injective on its input (collision
  resistance), and every claim below is decided by equality or
  inequality of the hashed strings themselves.
* Python float arithmetic is modelled over `Rat`; the clamping claims
  proved here are order-theoretic and insensitive to rounding.
* Thread locks, TTL expiry of `cachetools.TTLCache`, and logging are not
  modelled; the claims under study are about the sequential state
  transformations performed under the locks.
-/

/-! ## Association-list helpers (Python dict semantics) -/

/-- Lookup of a key in an association list: Python `d.get(k)`. -/
def lookupKey {κ β : Type} [DecidableEq κ] (k : κ) : List (κ × β) → Option β
  | [] => none
  | (k', v) :: rest => if k' = k then some v else lookupKey k rest

/-- Removal of the (first) binding of a key: Python `d.pop(k, None)`. -/
def eraseKey {κ β : Type} [DecidableEq κ] (k : κ) : List (κ × β) → List (κ × β)
  | [] => []
  | (k', v) :: rest => if k' = k then rest else (k', v) :: eraseKey k rest

/-- Assignment `d[k] = v`: updates the binding in place if present
(keeping its position, as CPython dicts do), otherwise appends. -/
def setAssoc {κ β : Type} [DecidableEq κ] (k : κ) (v : β) : List (κ × β) → List (κ × β)
  | [] => [(k, v)]
  | (k', v') :: rest => if k' = k then (k, v) :: rest else (k', v') :: setAssoc k v rest

theorem lookupKey_setAssoc_self {κ β : Type} [DecidableEq κ] (k : κ) (v : β) :
    ∀ l : List (κ × β), lookupKey k (setAssoc k v l) = some v := by
  intro l
  induction l with
  | nil => simp [setAssoc, lookupKey]
  | cons p rest ih =>
    by_cases h : p.1 = k
    · simp [setAssoc, h, lookupKey]
    · simpa [setAssoc, h, lookupKey] using ih

theorem lookupKey_setAssoc_ne {κ β : Type} [DecidableEq κ] (k q : κ) (v : β)
    (hne : k ≠ q) : ∀ l : List (κ × β), lookupKey q (setAssoc k v l) = lookupKey q l := by
  intro l
  induction l with
  | nil => simp [setAssoc, lookupKey, hne]
  | cons p rest ih =>
    by_cases h : p.1 = k
    · simp [setAssoc, h, lookupKey, hne]
    · simp [setAssoc, h, lookupKey]
      split
      · rfl
      · exact ih

theorem lookupKey_eraseKey_ne {κ β : Type} [DecidableEq κ] (k q : κ)
    (hne : k ≠ q) : ∀ l : List (κ × β), lookupKey q (eraseKey k l) = lookupKey q l := by
  intro l
  induction l with
  | nil => simp [eraseKey]
  | cons p rest ih =>
    by_cases h : p.1 = k
    · subst h
      simp [eraseKey, lookupKey, hne]
    · simp [eraseKey, h, lookupKey]
      split
      · rfl
      · exact ih

/-- Keys of an association list. -/
def assocKeys {κ β : Type} (l : List (κ × β)) : List κ := l.map Prod.fst

theorem assocKeys_cons {κ β : Type} (p : κ × β) (rest : List (κ × β)) :
    assocKeys (p :: rest) = p.1 :: assocKeys rest := rfl

theorem lookupKey_none_of_not_mem {κ β : Type} [DecidableEq κ] (k : κ) :
    ∀ l : List (κ × β), k ∉ assocKeys l → lookupKey k l = none := by
  intro l
  induction l with
  | nil => intro _; rfl
  | cons p rest ih =>
    intro hk
    obtain ⟨k', v⟩ := p
    rw [assocKeys_cons, List.mem_cons] at hk
    push_neg at hk
    have hne : ¬ k' = k := fun h => hk.1 h.symm
    simp only [lookupKey, if_neg hne]
    exact ih hk.2

theorem lookupKey_eraseKey_self {κ β : Type} [DecidableEq κ] (k : κ) :
    ∀ l : List (κ × β), (assocKeys l).Nodup → lookupKey k (eraseKey k l) = none := by
  intro l
  induction l with
  | nil => intro _; rfl
  | cons p rest ih =>
    intro hnd
    rw [assocKeys_cons, List.nodup_cons] at hnd
    obtain ⟨k', v⟩ := p
    by_cases h : k' = k
    · simp only [eraseKey, if_pos h]
      exact lookupKey_none_of_not_mem k rest (h ▸ hnd.1)
    · simp only [eraseKey, if_neg h, lookupKey, if_neg h]
      exact ih hnd.2

theorem lookupKey_mem_of_some {κ β : Type} [DecidableEq κ] (k : κ) (v : β) :
    ∀ l : List (κ × β), lookupKey k l = some v → (k, v) ∈ l := by
  intro l
  induction l with
  | nil => intro h; simp [lookupKey] at h
  | cons p rest ih =>
    intro h
    obtain ⟨k', v'⟩ := p
    simp only [lookupKey] at h
    by_cases he : k' = k
    · rw [if_pos he] at h
      injection h with hv
      subst he
      subst hv
      exact List.mem_cons_self _ _
    · rw [if_neg he] at h
      exact List.mem_cons_of_mem _ (ih h)

/-! ## Bucket statistics (services/catalog.py)

Embeds `_clamp_savings_pct` and `_build_bucket_stats` together with the
`BucketStats` record as constructed by the catalog service (the fields
`stats_mode`, `stats_loaded` and `object_count_is_limited` passed by the
constructor and read by `api/buckets.py`). -/

/-- Statistics mode, from `StatsMode` in services/deltaglider.py. -/
inductive StatsMode : Type
  | quick
  | sampled
  | detailed
deriving DecidableEq

def StatsMode.value : StatsMode → String
  | .quick => "quick"
  | .sampled => "sampled"
  | .detailed => "detailed"

/-- Bucket snapshot as produced by the SDK (sdk/models.py), with the
optional limited flag read defensively by `getattr` in the catalog. -/
structure BucketSnapshot : Type where
  name : String
  object_count : Int
  original_bytes : Int
  stored_bytes : Int
  savings_pct : Rat
  computed_at : Option Int
  object_count_is_limited : Bool := false
deriving DecidableEq

/-- Bucket statistics record as constructed by `_build_bucket_stats`. -/
structure BucketStats : Type where
  name : String
  object_count : Int
  original_bytes : Int
  stored_bytes : Int
  savings_pct : Rat
  pending : Bool
  computed_at : Option Int
  stats_mode : String
  stats_loaded : Bool
  object_count_is_limited : Bool
deriving DecidableEq

/-- Embeds `OBJECT_COUNT_LIMIT = 15_000` from services/catalog.py. -/
def OBJECT_COUNT_LIMIT : Int := 15000

/-- Embeds `_clamp_savings_pct` from services/catalog.py (float arithmetic
modelled over the rationals; the clamp itself is exact). -/
def clamp_savings_pct (original_bytes stored_bytes : Int) : Rat :=
  if original_bytes ≤ 0 then 0
  else
    let ratio : Rat := 1 - (stored_bytes : Rat) / (original_bytes : Rat)
    let pct := ratio * 100
    max 0 (min 100 pct)

/-- Embeds `_build_bucket_stats` from services/catalog.py. -/
def build_bucket_stats (snapshot : BucketSnapshot) (mode : StatsMode)
    (pending : Bool) (force_loaded : Bool) : BucketStats :=
  let limited_from_snapshot := snapshot.object_count_is_limited
  let limited := limited_from_snapshot || decide (snapshot.object_count > OBJECT_COUNT_LIMIT)
  let object_count :=
    if limited ∧ snapshot.object_count > OBJECT_COUNT_LIMIT then OBJECT_COUNT_LIMIT
    else snapshot.object_count
  let savings_pct := clamp_savings_pct snapshot.original_bytes snapshot.stored_bytes
  let stats_loaded := force_loaded || snapshot.computed_at.isSome
  { name := snapshot.name
    object_count := object_count
    original_bytes := snapshot.original_bytes
    stored_bytes := snapshot.stored_bytes
    savings_pct := savings_pct
    pending := pending
    computed_at := snapshot.computed_at
    stats_mode := mode.value
    stats_loaded := stats_loaded
    object_count_is_limited := limited }

/-- Embeds the per-snapshot construction done by
`BucketStatsService.list_buckets` (services/catalog.py): every snapshot
returned by the SDK is turned into stats with `pending = False` and
`force_loaded = compute_stats`. -/
def list_buckets_stats (snapshots : List BucketSnapshot) (compute_stats : Bool) :
    List BucketStats :=
  let mode := if compute_stats then StatsMode.detailed else StatsMode.quick
  snapshots.map fun snapshot => build_bucket_stats snapshot mode false compute_stats

/-- Embeds the construction done by `BucketStatsService.get_bucket_stats`
(services/catalog.py): the computed snapshot is turned into stats with
`pending = False` and `force_loaded = True`. -/
def get_bucket_stats (snapshot : BucketSnapshot) (mode : StatsMode) : BucketStats :=
  build_bucket_stats snapshot mode false true

theorem clamp_savings_pct_nonneg (o s : Int) : 0 ≤ clamp_savings_pct o s := by
  unfold clamp_savings_pct
  split
  · exact le_refl 0
  · exact le_max_left _ _

theorem clamp_savings_pct_le_100 (o s : Int) : clamp_savings_pct o s ≤ 100 := by
  unfold clamp_savings_pct
  split
  · norm_num
  · exact max_le (by norm_num) (min_le_left _ _)

/-- C10: every `BucketStats` produced by `_build_bucket_stats` (hence by
`CatalogService.list_buckets` and `CatalogService.get_bucket_stats`) has
`savings_pct` clamped into `[0, 100]` (and equal to `0` whenever
`original_bytes <= 0`), and its reported `object_count` never exceeds
`OBJECT_COUNT_LIMIT = 15000`: a snapshot count above the limit is capped
to the limit with `object_count_is_limited` set. -/
theorem build_bucket_stats_clamped (snapshot : BucketSnapshot) (mode : StatsMode)
    (pending force_loaded : Bool) (snapshots : List BucketSnapshot) (compute_stats : Bool) :
    (0 ≤ (build_bucket_stats snapshot mode pending force_loaded).savings_pct
      ∧ (build_bucket_stats snapshot mode pending force_loaded).savings_pct ≤ 100
      ∧ (snapshot.original_bytes ≤ 0 →
          (build_bucket_stats snapshot mode pending force_loaded).savings_pct = 0)
      ∧ (build_bucket_stats snapshot mode pending force_loaded).object_count
          ≤ OBJECT_COUNT_LIMIT
      ∧ (snapshot.object_count > OBJECT_COUNT_LIMIT →
          (build_bucket_stats snapshot mode pending force_loaded).object_count
              = OBJECT_COUNT_LIMIT
            ∧ (build_bucket_stats snapshot mode pending
                force_loaded).object_count_is_limited = true))
    ∧ (∀ stats ∈ list_buckets_stats snapshots compute_stats,
        0 ≤ stats.savings_pct ∧ stats.savings_pct ≤ 100
          ∧ stats.object_count ≤ OBJECT_COUNT_LIMIT)
    ∧ (0 ≤ (get_bucket_stats snapshot mode).savings_pct
        ∧ (get_bucket_stats snapshot mode).savings_pct ≤ 100
        ∧ (get_bucket_stats snapshot mode).object_count ≤ OBJECT_COUNT_LIMIT) := by
  have base : ∀ (sn : BucketSnapshot) (m : StatsMode) (p f : Bool),
      0 ≤ (build_bucket_stats sn m p f).savings_pct
        ∧ (build_bucket_stats sn m p f).savings_pct ≤ 100
        ∧ (build_bucket_stats sn m p f).object_count ≤ OBJECT_COUNT_LIMIT := by
    intro sn m p f
    refine ⟨clamp_savings_pct_nonneg _ _, clamp_savings_pct_le_100 _ _, ?_⟩
    simp only [build_bucket_stats]
    split
    · exact le_refl _
    · rename_i hcond
      by_cases hgt : sn.object_count > OBJECT_COUNT_LIMIT
      · exfalso
        exact hcond ⟨by simp [hgt], hgt⟩
      · omega
  refine ⟨⟨(base snapshot mode pending force_loaded).1,
      (base snapshot mode pending force_loaded).2.1, ?_,
      (base snapshot mode pending force_loaded).2.2, ?_⟩, ?_, base snapshot mode false true⟩
  · intro h0
    simp only [build_bucket_stats, clamp_savings_pct, if_pos h0]
  · intro hgt
    constructor
    · simp only [build_bucket_stats]
      rw [if_pos ⟨by simp [hgt], hgt⟩]
    · simp only [build_bucket_stats]
      simp [hgt]
  · intro stats hmem
    simp only [list_buckets_stats, List.mem_map] at hmem
    obtain ⟨sn, _, rfl⟩ := hmem
    exact base sn _ false compute_stats

/-- Witness for `build_bucket_stats_clamped`: a snapshot with
`original_bytes = -5` and `object_count = 20000` exercises both the
zero-savings branch and the count cap. -/
theorem build_bucket_stats_clamped_witness :
    ((-5 : Int) ≤ 0 ∧ (20000 : Int) > OBJECT_COUNT_LIMIT)
    ∧ (build_bucket_stats
        { name := "b", object_count := 20000, original_bytes := -5, stored_bytes := 3,
          savings_pct := 7, computed_at := none } StatsMode.quick false false).savings_pct = 0
    ∧ (build_bucket_stats
        { name := "b", object_count := 20000, original_bytes := -5, stored_bytes := 3,
          savings_pct := 7, computed_at := none } StatsMode.quick false false).object_count
        = OBJECT_COUNT_LIMIT
    ∧ (build_bucket_stats
        { name := "b", object_count := 20000, original_bytes := -5, stored_bytes := 3,
          savings_pct := 7, computed_at := none } StatsMode.quick false
          false).object_count_is_limited = true := by
  have h := build_bucket_stats_clamped
    { name := "b", object_count := 20000, original_bytes := -5, stored_bytes := 3,
      savings_pct := 7, computed_at := none } StatsMode.quick false false [] false
  exact ⟨⟨by decide, by decide⟩, h.1.2.2.1 (by decide),
    (h.1.2.2.2.2 (by decide)).1, (h.1.2.2.2.2 (by decide)).2⟩

/-! ## Session stores (auth/session_store.py and
auth/filesystem_session_store.py)

Both backends share the credential hash of `auth/session_base.py` and the
idle-TTL test. Timestamps are explicit; `secrets.token_urlsafe` is an
explicit argument (the fresh session id); the SDK handle is an opaque
number. Pickle corruption handling (corrupt file treated as absent) is
outside the sequential state model. -/

/-- Credential set, the dict handed to `_hash_credentials`. -/
structure Credentials : Type where
  access_key_id : String
  secret_access_key : String
  region : String
  endpoint : String
deriving DecidableEq

/-- Embeds `_hash_credentials` (auth/session_base.py, duplicated in both
stores): the colon-joined credential string fed to SHA-256; the digest is
modelled by the hashed string itself. -/
def hash_credentials (c : Credentials) : String :=
  c.access_key_id ++ ":" ++ c.secret_access_key ++ ":" ++ c.region ++ ":" ++ c.endpoint

/-- Embeds `SessionData` (same shape in both stores). -/
structure SessionData : Type where
  credentials : Credentials
  sdk_client : Nat
  last_accessed : Int
  created_at : Int
deriving DecidableEq

/-- Embeds `_is_expired`: a session is expired when
`(now - last_accessed) > ttl`. -/
def is_expired (ttl now : Int) (d : SessionData) : Bool :=
  decide (now - d.last_accessed > ttl)

/-- Embeds `_update_access_order` of both stores: remove the id if present
and append it at the MRU end. -/
def update_access_order (sid : String) (order : List String) : List String :=
  order.erase sid ++ [sid]

/-- State of the in-memory `SessionStore`: the `_sessions` dict and the
`_access_order` list. -/
structure SessionStore : Type where
  sessions : List (String × SessionData)
  access_order : List String
deriving DecidableEq

/-- Embeds the loop body of `SessionStore.find_by_credentials_hash`: scan
the dict snapshot for the first live session whose credentials hash
matches, collecting the expired matching ids encountered on the way (the
code deletes those as it goes). Returns the found binding and the ids to
remove. -/
def find_scan (ttl now : Int) (h : String) :
    List (String × SessionData) → Option (String × SessionData) × List String
  | [] => (none, [])
  | (sid, d) :: rest =>
    if hash_credentials d.credentials = h then
      if is_expired ttl now d then
        let r := find_scan ttl now h rest
        (r.1, sid :: r.2)
      else (some (sid, d), [])
    else find_scan ttl now h rest

/-- Applies the clean-up removals produced by `find_scan` to the store. -/
def applyRemovals (st : SessionStore) (rem : List String) : SessionStore :=
  { sessions := rem.foldl (fun acc sid => eraseKey sid acc) st.sessions
    access_order := rem.foldl (fun acc sid => acc.erase sid) st.access_order }

/-- Embeds `SessionStore._evict_lru`: drop the head of the access order
and its session, if any. -/
def SessionStore.evict_lru (st : SessionStore) : SessionStore :=
  match st.access_order with
  | [] => st
  | lru :: rest => { sessions := eraseKey lru st.sessions, access_order := rest }

/-- Embeds `SessionStore.create_or_reuse`: reuse a live session with the
same credential hash (touching its access time and MRU position), else
insert a fresh record, evicting the LRU entry when at capacity. -/
def SessionStore.create_or_reuse (max_size : Nat) (ttl : Int) (st : SessionStore)
    (now : Int) (new_id : String) (creds : Credentials) (sdk : Nat) :
    String × SessionStore :=
  let cred_hash := hash_credentials creds
  let scan := find_scan ttl now cred_hash st.sessions
  let st1 := applyRemovals st scan.2
  match scan.1 with
  | some (existing, d) =>
    let d' := { d with last_accessed := now }
    (existing,
      { sessions := setAssoc existing d' st1.sessions
        access_order := update_access_order existing st1.access_order })
  | none =>
    let d : SessionData :=
      { credentials := creds, sdk_client := sdk, last_accessed := now, created_at := now }
    let st2 := if st1.sessions.length ≥ max_size then st1.evict_lru else st1
    (new_id,
      { sessions := setAssoc new_id d st2.sessions
        access_order := update_access_order new_id st2.access_order })

/-- Embeds `SessionStore.get`: a present, non-expired session is touched
and moved to the MRU end; an expired one is removed and `None` returned. -/
def SessionStore.get (ttl : Int) (st : SessionStore) (now : Int) (sid : String) :
    Option SessionData × SessionStore :=
  match lookupKey sid st.sessions with
  | none => (none, st)
  | some d =>
    if is_expired ttl now d then
      (none,
        { sessions := eraseKey sid st.sessions
          access_order := st.access_order.erase sid })
    else
      let d' := { d with last_accessed := now }
      (some d',
        { sessions := setAssoc sid d' st.sessions
          access_order := update_access_order sid st.access_order })

/-- Embeds `SessionStore.count`. -/
def SessionStore.count (st : SessionStore) : Nat := st.sessions.length

/-- State of the `FileSystemSessionStore`: one serialized record per
session id (the session files) and the MRU index file. -/
structure FileSystemSessionStore : Type where
  files : List (String × SessionData)
  index : List String
deriving DecidableEq

/-- Embeds `_find_by_credentials_hash_unlocked` of the filesystem store:
walk the index snapshot; drop index entries whose file is missing; delete
expired matching sessions; stop at the first live match. Returns the
found id together with the updated index and files. -/
def fs_find_scan (ttl now : Int) (h : String) :
    List String → List String → List (String × SessionData) →
    Option String × List String × List (String × SessionData)
  | [], index, files => (none, index, files)
  | sid :: rest, index, files =>
    match lookupKey sid files with
    | none => fs_find_scan ttl now h rest (index.erase sid) files
    | some d =>
      if hash_credentials d.credentials = h then
        if is_expired ttl now d then
          fs_find_scan ttl now h rest (index.erase sid) (eraseKey sid files)
        else (some sid, index, files)
      else fs_find_scan ttl now h rest index files

/-- Embeds `FileSystemSessionStore._evict_lru`: pop the index head and
delete its session file. -/
def FileSystemSessionStore.evict_lru (st : FileSystemSessionStore) :
    FileSystemSessionStore :=
  match st.index with
  | [] => st
  | lru :: rest => { files := eraseKey lru st.files, index := rest }

/-- Embeds `FileSystemSessionStore.create_or_reuse`; when the found
session file can no longer be loaded the code falls through to the
creation path, exactly as the Python does. -/
def FileSystemSessionStore.create_or_reuse (max_size : Nat) (ttl : Int)
    (st : FileSystemSessionStore) (now : Int) (new_id : String)
    (creds : Credentials) (sdk : Nat) : String × FileSystemSessionStore :=
  let cred_hash := hash_credentials creds
  let scan := fs_find_scan ttl now cred_hash st.index st.index st.files
  let create : List String → List (String × SessionData) →
      String × FileSystemSessionStore := fun index files =>
    let d : SessionData :=
      { credentials := creds, sdk_client := sdk, last_accessed := now, created_at := now }
    let st2 : FileSystemSessionStore :=
      if index.length ≥ max_size then FileSystemSessionStore.evict_lru ⟨files, index⟩
      else ⟨files, index⟩
    (new_id,
      { files := setAssoc new_id d st2.files
        index := update_access_order new_id st2.index })
  match scan with
  | (some existing, index, files) =>
    match lookupKey existing files with
    | some d =>
      let d' := { d with last_accessed := now }
      (existing,
        { files := setAssoc existing d' files
          index := update_access_order existing index })
    | none => create index files
  | (none, index, files) => create index files

/-- Embeds `FileSystemSessionStore.get`. -/
def FileSystemSessionStore.get (ttl : Int) (st : FileSystemSessionStore)
    (now : Int) (sid : String) : Option SessionData × FileSystemSessionStore :=
  match lookupKey sid st.files with
  | none => (none, st)
  | some d =>
    if is_expired ttl now d then
      (none, { files := eraseKey sid st.files, index := st.index.erase sid })
    else
      let d' := { d with last_accessed := now }
      (some d',
        { files := setAssoc sid d' st.files
          index := update_access_order sid st.index })

/-- Embeds `FileSystemSessionStore.count`: the length of the index. -/
def FileSystemSessionStore.count (st : FileSystemSessionStore) : Nat := st.index.length

/-- C4: on both backends, two `create_or_reuse` calls with identical
credentials (the second within the idle TTL of the first) return the same
session id, leave `count()` at `1`, and update the existing record
(refreshing `last_accessed` to the second call time) instead of creating
a second record or SDK handle. -/
theorem create_or_reuse_dedups (max_size : Nat) (ttl now1 now2 : Int)
    (id1 id2 : String) (creds : Credentials) (sdk : Nat)
    (hlive : now2 - now1 ≤ ttl) :
    (let r1 := SessionStore.create_or_reuse max_size ttl ⟨[], []⟩ now1 id1 creds sdk
     let r2 := SessionStore.create_or_reuse max_size ttl r1.2 now2 id2 creds sdk
     r1.1 = id1 ∧ r2.1 = id1 ∧ r2.2.count = 1
       ∧ lookupKey id1 r2.2.sessions = some
           { credentials := creds, sdk_client := sdk,
             last_accessed := now2, created_at := now1 })
    ∧ (let f1 := FileSystemSessionStore.create_or_reuse max_size ttl ⟨[], []⟩
          now1 id1 creds sdk
       let f2 := FileSystemSessionStore.create_or_reuse max_size ttl f1.2 now2 id2 creds sdk
       f1.1 = id1 ∧ f2.1 = id1 ∧ f2.2.count = 1
         ∧ lookupKey id1 f2.2.files = some
             { credentials := creds, sdk_client := sdk,
               last_accessed := now2, created_at := now1 }) := by
  have hexp : is_expired ttl now2
      { credentials := creds, sdk_client := sdk,
        last_accessed := now1, created_at := now1 } = false := by
    simp only [is_expired, decide_eq_false_iff_not, not_lt]
    omega
  have e1 : SessionStore.create_or_reuse max_size ttl ⟨[], []⟩ now1 id1 creds sdk
      = (id1, ⟨[(id1, (⟨creds, sdk, now1, now1⟩ : SessionData))], [id1]⟩) := by
    simp only [SessionStore.create_or_reuse, find_scan, applyRemovals, List.foldl_nil]
    split
    · simp [SessionStore.evict_lru, setAssoc, update_access_order]
    · simp [setAssoc, update_access_order]
  have e2 : SessionStore.create_or_reuse max_size ttl
      ⟨[(id1, (⟨creds, sdk, now1, now1⟩ : SessionData))], [id1]⟩ now2 id2 creds sdk
      = (id1, ⟨[(id1, (⟨creds, sdk, now2, now1⟩ : SessionData))], [id1]⟩) := by
    simp [SessionStore.create_or_reuse, find_scan, hexp, applyRemovals,
      setAssoc, update_access_order]
  have f1 : FileSystemSessionStore.create_or_reuse max_size ttl ⟨[], []⟩ now1 id1 creds sdk
      = (id1, ⟨[(id1, (⟨creds, sdk, now1, now1⟩ : SessionData))], [id1]⟩) := by
    simp only [FileSystemSessionStore.create_or_reuse, fs_find_scan]
    split
    · simp [FileSystemSessionStore.evict_lru, setAssoc, update_access_order]
    · simp [setAssoc, update_access_order]
  have f2 : FileSystemSessionStore.create_or_reuse max_size ttl
      ⟨[(id1, (⟨creds, sdk, now1, now1⟩ : SessionData))], [id1]⟩ now2 id2 creds sdk
      = (id1, ⟨[(id1, (⟨creds, sdk, now2, now1⟩ : SessionData))], [id1]⟩) := by
    have hscan : fs_find_scan ttl now2 (hash_credentials creds) [id1] [id1]
        [(id1, (⟨creds, sdk, now1, now1⟩ : SessionData))]
        = (some id1, [id1], [(id1, (⟨creds, sdk, now1, now1⟩ : SessionData))]) := by
      simp [fs_find_scan, lookupKey, hexp]
    simp [FileSystemSessionStore.create_or_reuse, hscan, lookupKey, setAssoc,
      update_access_order]
  refine ⟨?_, ?_⟩
  · simp only [e1]
    simp only [e2]
    simp [SessionStore.count, lookupKey]
  · simp only [f1]
    simp only [f2]
    simp [FileSystemSessionStore.count, lookupKey]

/-- Witness for `create_or_reuse_dedups` at a concrete input. -/
theorem create_or_reuse_dedups_witness :
    ((20 : Int) - 10 ≤ 1800)
    ∧ (let r1 := SessionStore.create_or_reuse 20 1800 ⟨[], []⟩ 10 "sid-a"
          ⟨"AKIA", "S3CR3T", "us-east-1", "http://minio:9000"⟩ 1
       let r2 := SessionStore.create_or_reuse 20 1800 r1.2 20 "sid-b"
          ⟨"AKIA", "S3CR3T", "us-east-1", "http://minio:9000"⟩ 1
       r1.1 = "sid-a" ∧ r2.1 = "sid-a" ∧ r2.2.count = 1
         ∧ lookupKey "sid-a" r2.2.sessions = some
             { credentials := ⟨"AKIA", "S3CR3T", "us-east-1", "http://minio:9000"⟩,
               sdk_client := 1, last_accessed := 20, created_at := 10 })
    ∧ (let f1 := FileSystemSessionStore.create_or_reuse 20 1800 ⟨[], []⟩ 10 "sid-a"
          ⟨"AKIA", "S3CR3T", "us-east-1", "http://minio:9000"⟩ 1
       let f2 := FileSystemSessionStore.create_or_reuse 20 1800 f1.2 20 "sid-b"
          ⟨"AKIA", "S3CR3T", "us-east-1", "http://minio:9000"⟩ 1
       f1.1 = "sid-a" ∧ f2.1 = "sid-a" ∧ f2.2.count = 1
         ∧ lookupKey "sid-a" f2.2.files = some
             { credentials := ⟨"AKIA", "S3CR3T", "us-east-1", "http://minio:9000"⟩,
               sdk_client := 1, last_accessed := 20, created_at := 10 }) := by
  have h := create_or_reuse_dedups 20 1800 10 20 "sid-a" "sid-b"
    ⟨"AKIA", "S3CR3T", "us-east-1", "http://minio:9000"⟩ 1 (by decide)
  exact ⟨by decide, h.1, h.2⟩

theorem find_scan_none (ttl now : Int) (h : String) :
    ∀ l : List (String × SessionData),
      (∀ p ∈ l, hash_credentials (Prod.snd p).credentials ≠ h) →
      find_scan ttl now h l = (none, []) := by
  intro l
  induction l with
  | nil => intro _; rfl
  | cons p rest ih =>
    intro hno
    obtain ⟨sid, d⟩ := p
    have hne := hno (sid, d) (List.mem_cons_self _ _)
    simp only [find_scan, if_neg hne]
    exact ih fun q hq => hno q (List.mem_cons_of_mem _ hq)

theorem lookupKey_append_left {κ β : Type} [DecidableEq κ] (k : κ) (v : β) :
    ∀ l1 l2 : List (κ × β), lookupKey k l1 = some v →
      lookupKey k (l1 ++ l2) = some v := by
  intro l1 l2 hl
  induction l1 with
  | nil => simp [lookupKey] at hl
  | cons p rest ih =>
    obtain ⟨k', v'⟩ := p
    simp only [lookupKey] at hl ⊢
    by_cases he : k' = k
    · rw [if_pos he] at hl ⊢
      exact hl
    · rw [if_neg he] at hl ⊢
      exact ih hl

theorem lookupKey_append_right {κ β : Type} [DecidableEq κ] (k : κ) :
    ∀ l1 l2 : List (κ × β), lookupKey k l1 = none →
      lookupKey k (l1 ++ l2) = lookupKey k l2 := by
  intro l1 l2 hl
  induction l1 with
  | nil => simp
  | cons p rest ih =>
    obtain ⟨k', v'⟩ := p
    simp only [lookupKey] at hl ⊢
    by_cases he : k' = k
    · rw [if_pos he] at hl
      cases hl
    · rw [if_neg he] at hl
      simp only [List.cons_append, lookupKey, if_neg he]
      exact ih hl

theorem mem_assocKeys_of_lookup {κ β : Type} [DecidableEq κ] (k : κ) (v : β)
    (l : List (κ × β)) (h : lookupKey k l = some v) : k ∈ assocKeys l := by
  have := lookupKey_mem_of_some k v l h
  exact List.mem_map.mpr ⟨(k, v), this, rfl⟩

theorem assocKeys_eraseKey_sub {κ β : Type} [DecidableEq κ] (k q : κ) :
    ∀ l : List (κ × β), q ∈ assocKeys (eraseKey k l) → q ∈ assocKeys l := by
  intro l
  induction l with
  | nil => intro h; exact h
  | cons p rest ih =>
    obtain ⟨k', v⟩ := p
    by_cases he : k' = k
    · simp only [eraseKey, if_pos he]
      intro h
      exact List.mem_cons_of_mem _ h
    · simp only [eraseKey, if_neg he, assocKeys_cons, List.mem_cons]
      rintro (h | h)
      · exact Or.inl h
      · exact Or.inr (ih h)

theorem length_eraseKey_of_mem {κ β : Type} [DecidableEq κ] (k : κ) :
    ∀ l : List (κ × β), k ∈ assocKeys l →
      (eraseKey k l).length = l.length - 1 := by
  intro l
  induction l with
  | nil => intro h; cases h
  | cons p rest ih =>
    obtain ⟨k', v⟩ := p
    intro hmem
    by_cases he : k' = k
    · simp [eraseKey, if_pos he]
    · rw [assocKeys_cons, List.mem_cons] at hmem
      rcases hmem with h | h
      · exact absurd h.symm he
      · have hr : rest.length ≥ 1 := by
          cases rest with
          | nil => cases h
          | cons q t => simp
        simp only [eraseKey, if_neg he, List.length_cons, ih h]
        omega

theorem setAssoc_eq_append {κ β : Type} [DecidableEq κ] (k : κ) (v : β) :
    ∀ l : List (κ × β), k ∉ assocKeys l → setAssoc k v l = l ++ [(k, v)] := by
  intro l
  induction l with
  | nil => intro _; rfl
  | cons p rest ih =>
    obtain ⟨k', v'⟩ := p
    intro hk
    rw [assocKeys_cons, List.mem_cons] at hk
    push_neg at hk
    have hne : ¬ k' = k := fun h => hk.1 h.symm
    simp only [setAssoc, if_neg hne, List.cons_append, List.cons.injEq, true_and]
    exact ih hk.2

/-- C5: with the store at capacity `max_size` and its access order led by
the (unique) least-recently-accessed session, `create_or_reuse` with
fresh distinct credentials evicts exactly that session — the oldest by
`last_accessed`, regardless of creation order — inserts the new record,
and leaves every other session present and unchanged, with the count
still `max_size`. -/
theorem create_or_reuse_evicts_lru (max_size : Nat) (ttl now : Int)
    (new_id lru : String) (creds : Credentials) (sdk : Nat)
    (st : SessionStore) (rest : List String) (dlru : SessionData)
    (horder : st.access_order = lru :: rest)
    (hcap : st.sessions.length = max_size)
    (hnodup : (assocKeys st.sessions).Nodup)
    (hlru : lookupKey lru st.sessions = some dlru)
    (hfreshid : new_id ∉ assocKeys st.sessions)
    (hordmem : ∀ sid ∈ st.access_order, sid ∈ assocKeys st.sessions)
    (hdistinct : ∀ p ∈ st.sessions,
      hash_credentials (Prod.snd p).credentials ≠ hash_credentials creds)
    (holdest : ∀ p ∈ st.sessions, Prod.fst p ≠ lru →
      dlru.last_accessed < (Prod.snd p).last_accessed) :
    (SessionStore.create_or_reuse max_size ttl st now new_id creds sdk).1 = new_id
    ∧ lookupKey lru
        (SessionStore.create_or_reuse max_size ttl st now new_id creds sdk).2.sessions = none
    ∧ (∀ sid, sid ≠ lru → sid ≠ new_id →
        lookupKey sid
            (SessionStore.create_or_reuse max_size ttl st now new_id creds sdk).2.sessions
          = lookupKey sid st.sessions)
    ∧ lookupKey new_id
        (SessionStore.create_or_reuse max_size ttl st now new_id creds sdk).2.sessions
        = some ⟨creds, sdk, now, now⟩
    ∧ (SessionStore.create_or_reuse max_size ttl st now new_id creds sdk).2.count = max_size
    ∧ (SessionStore.create_or_reuse max_size ttl st now new_id creds sdk).2.access_order
        = rest ++ [new_id] := by
  have hscan := find_scan_none ttl now (hash_credentials creds) st.sessions hdistinct
  have hlru_mem : lru ∈ assocKeys st.sessions := mem_assocKeys_of_lookup lru dlru _ hlru
  have hne_new : lru ≠ new_id := fun h => hfreshid (h ▸ hlru_mem)
  have hfresh_erase : new_id ∉ assocKeys (eraseKey lru st.sessions) :=
    fun h => hfreshid (assocKeys_eraseKey_sub lru new_id _ h)
  have hrest_new : new_id ∉ rest := by
    intro h
    exact hfreshid (hordmem new_id (horder ▸ List.mem_cons_of_mem _ h))
  have hcap_ge : max_size ≤ st.sessions.length := le_of_eq hcap.symm
  have hlen_pos : 1 ≤ st.sessions.length := by
    cases hs : st.sessions with
    | nil => rw [hs] at hlru; cases hlru
    | cons a t => simp [hs]
  have hmain : SessionStore.create_or_reuse max_size ttl st now new_id creds sdk
      = (new_id, ⟨eraseKey lru st.sessions ++ [(new_id, ⟨creds, sdk, now, now⟩)],
          rest ++ [new_id]⟩) := by
    simp only [SessionStore.create_or_reuse, hscan, applyRemovals, List.foldl_nil]
    rw [if_pos hcap_ge]
    simp only [SessionStore.evict_lru, horder]
    rw [setAssoc_eq_append _ _ _ hfresh_erase]
    simp only [update_access_order, List.erase_of_not_mem hrest_new]
  rw [hmain]
  refine ⟨rfl, ?_, ?_, ?_, ?_, rfl⟩
  · rw [lookupKey_append_right _ _ _ (lookupKey_eraseKey_self lru _ hnodup)]
    simp only [lookupKey, if_neg (fun h : new_id = lru => hne_new h.symm)]
  · intro sid hsl hsn
    cases hq : lookupKey sid st.sessions with
    | some v =>
      have h1 : lookupKey sid (eraseKey lru st.sessions) = some v :=
        (lookupKey_eraseKey_ne lru sid (fun h => hsl h.symm) st.sessions).trans hq
      rw [lookupKey_append_left sid v _ _ h1]
    | none =>
      have h1 : lookupKey sid (eraseKey lru st.sessions) = none :=
        (lookupKey_eraseKey_ne lru sid (fun h => hsl h.symm) st.sessions).trans hq
      rw [lookupKey_append_right sid _ _ h1]
      simp only [lookupKey, if_neg (fun h : new_id = sid => hsn h.symm)]
  · rw [lookupKey_append_right new_id _ _ (lookupKey_none_of_not_mem _ _ hfresh_erase)]
    simp [lookupKey]
  · simp only [SessionStore.count, List.length_append,
      length_eraseKey_of_mem lru st.sessions hlru_mem, List.length_singleton, hcap]
    omega

/-- Witness for `create_or_reuse_evicts_lru`: two sessions at capacity 2;
the first-created session s1 was accessed recently (t = 50) while the
later-created s2 was last accessed at t = 20, so s2 — least recently
accessed, though not least recently created — is the one evicted. -/
theorem create_or_reuse_evicts_lru_witness :
    ((0 : Int) < 10
      ∧ lookupKey "s2"
          [("s1", (⟨⟨"AK1", "S1", "r", "e"⟩, 1, 50, 0⟩ : SessionData)),
           ("s2", (⟨⟨"AK2", "S2", "r", "e"⟩, 2, 20, 10⟩ : SessionData))]
          = some (⟨⟨"AK2", "S2", "r", "e"⟩, 2, 20, 10⟩ : SessionData))
    ∧ (SessionStore.create_or_reuse 2 1800
        ⟨[("s1", ⟨⟨"AK1", "S1", "r", "e"⟩, 1, 50, 0⟩),
          ("s2", ⟨⟨"AK2", "S2", "r", "e"⟩, 2, 20, 10⟩)], ["s2", "s1"]⟩
        60 "s3" ⟨"AK3", "S3", "r", "e"⟩ 3).1 = "s3"
    ∧ lookupKey "s2" (SessionStore.create_or_reuse 2 1800
        ⟨[("s1", ⟨⟨"AK1", "S1", "r", "e"⟩, 1, 50, 0⟩),
          ("s2", ⟨⟨"AK2", "S2", "r", "e"⟩, 2, 20, 10⟩)], ["s2", "s1"]⟩
        60 "s3" ⟨"AK3", "S3", "r", "e"⟩ 3).2.sessions = none
    ∧ lookupKey "s1" (SessionStore.create_or_reuse 2 1800
        ⟨[("s1", ⟨⟨"AK1", "S1", "r", "e"⟩, 1, 50, 0⟩),
          ("s2", ⟨⟨"AK2", "S2", "r", "e"⟩, 2, 20, 10⟩)], ["s2", "s1"]⟩
        60 "s3" ⟨"AK3", "S3", "r", "e"⟩ 3).2.sessions
        = lookupKey "s1"
            [("s1", (⟨⟨"AK1", "S1", "r", "e"⟩, 1, 50, 0⟩ : SessionData)),
             ("s2", (⟨⟨"AK2", "S2", "r", "e"⟩, 2, 20, 10⟩ : SessionData))]
    ∧ lookupKey "s3" (SessionStore.create_or_reuse 2 1800
        ⟨[("s1", ⟨⟨"AK1", "S1", "r", "e"⟩, 1, 50, 0⟩),
          ("s2", ⟨⟨"AK2", "S2", "r", "e"⟩, 2, 20, 10⟩)], ["s2", "s1"]⟩
        60 "s3" ⟨"AK3", "S3", "r", "e"⟩ 3).2.sessions
        = some ⟨⟨"AK3", "S3", "r", "e"⟩, 3, 60, 60⟩
    ∧ (SessionStore.create_or_reuse 2 1800
        ⟨[("s1", ⟨⟨"AK1", "S1", "r", "e"⟩, 1, 50, 0⟩),
          ("s2", ⟨⟨"AK2", "S2", "r", "e"⟩, 2, 20, 10⟩)], ["s2", "s1"]⟩
        60 "s3" ⟨"AK3", "S3", "r", "e"⟩ 3).2.count = 2
    ∧ (SessionStore.create_or_reuse 2 1800
        ⟨[("s1", ⟨⟨"AK1", "S1", "r", "e"⟩, 1, 50, 0⟩),
          ("s2", ⟨⟨"AK2", "S2", "r", "e"⟩, 2, 20, 10⟩)], ["s2", "s1"]⟩
        60 "s3" ⟨"AK3", "S3", "r", "e"⟩ 3).2.access_order = ["s1", "s3"] := by
  have h := create_or_reuse_evicts_lru 2 1800 60 "s3" "s2" ⟨"AK3", "S3", "r", "e"⟩ 3
    ⟨[("s1", ⟨⟨"AK1", "S1", "r", "e"⟩, 1, 50, 0⟩),
      ("s2", ⟨⟨"AK2", "S2", "r", "e"⟩, 2, 20, 10⟩)], ["s2", "s1"]⟩
    ["s1"] ⟨⟨"AK2", "S2", "r", "e"⟩, 2, 20, 10⟩
    rfl rfl (by decide) (by decide) (by decide) (by decide) (by decide) (by decide)
  exact ⟨⟨by decide, by decide⟩, h.1, h.2.1,
    h.2.2.1 "s1" (by decide) (by decide), h.2.2.2.1, h.2.2.2.2.1, h.2.2.2.2.2⟩

/-- C6: on both backends `get` returns the stored record exactly when
`now - last_accessed <= ttl` (sliding idle window, strict beyond-TTL
cutoff): a live hit refreshes `last_accessed` to `now` and moves the id
to the MRU end, while an expired session is removed from the store and
its access order. -/
theorem get_respects_idle_ttl (ttl now : Int) (sid : String) (d : SessionData)
    (stm : SessionStore) (stf : FileSystemSessionStore)
    (hmem : lookupKey sid stm.sessions = some d)
    (hfile : lookupKey sid stf.files = some d) :
    (SessionStore.get ttl stm now sid
      = if now - d.last_accessed ≤ ttl then
          (some { d with last_accessed := now },
            ⟨setAssoc sid { d with last_accessed := now } stm.sessions,
              stm.access_order.erase sid ++ [sid]⟩)
        else (none, ⟨eraseKey sid stm.sessions, stm.access_order.erase sid⟩))
    ∧ (FileSystemSessionStore.get ttl stf now sid
      = if now - d.last_accessed ≤ ttl then
          (some { d with last_accessed := now },
            ⟨setAssoc sid { d with last_accessed := now } stf.files,
              stf.index.erase sid ++ [sid]⟩)
        else (none, ⟨eraseKey sid stf.files, stf.index.erase sid⟩)) := by
  constructor
  · simp only [SessionStore.get, hmem]
    by_cases h : now - d.last_accessed ≤ ttl
    · have hexp : is_expired ttl now d = false := by
        simp only [is_expired, decide_eq_false_iff_not, not_lt]
        omega
      rw [if_pos h]
      simp [hexp, update_access_order]
    · have hexp : is_expired ttl now d = true := by
        simp only [is_expired, decide_eq_true_eq]
        omega
      rw [if_neg h]
      simp [hexp]
  · simp only [FileSystemSessionStore.get, hfile]
    by_cases h : now - d.last_accessed ≤ ttl
    · have hexp : is_expired ttl now d = false := by
        simp only [is_expired, decide_eq_false_iff_not, not_lt]
        omega
      rw [if_pos h]
      simp [hexp, update_access_order]
    · have hexp : is_expired ttl now d = true := by
        simp only [is_expired, decide_eq_true_eq]
        omega
      rw [if_neg h]
      simp [hexp]

/-- Witness for `get_respects_idle_ttl` at the two boundary instances:
with `ttl = 10` and `now = 100`, a session last accessed at 89
(`now - ttl - 1`) is absent and evicted, and one last accessed at 91
(`now - ttl + 1`) is returned with its access time refreshed. -/
theorem get_respects_idle_ttl_witness :
    (lookupKey "A" [("A", (⟨⟨"AK", "S", "r", "e"⟩, 1, 89, 0⟩ : SessionData))]
        = some (⟨⟨"AK", "S", "r", "e"⟩, 1, 89, 0⟩ : SessionData)
      ∧ lookupKey "B" [("B", (⟨⟨"AK", "S", "r", "e"⟩, 1, 91, 0⟩ : SessionData))]
        = some (⟨⟨"AK", "S", "r", "e"⟩, 1, 91, 0⟩ : SessionData))
    ∧ SessionStore.get 10 ⟨[("A", ⟨⟨"AK", "S", "r", "e"⟩, 1, 89, 0⟩)], ["A"]⟩ 100 "A"
        = (none, ⟨[], []⟩)
    ∧ SessionStore.get 10 ⟨[("B", ⟨⟨"AK", "S", "r", "e"⟩, 1, 91, 0⟩)], ["B"]⟩ 100 "B"
        = (some ⟨⟨"AK", "S", "r", "e"⟩, 1, 100, 0⟩,
            ⟨[("B", ⟨⟨"AK", "S", "r", "e"⟩, 1, 100, 0⟩)], ["B"]⟩)
    ∧ FileSystemSessionStore.get 10 ⟨[("A", ⟨⟨"AK", "S", "r", "e"⟩, 1, 89, 0⟩)], ["A"]⟩
        100 "A" = (none, ⟨[], []⟩)
    ∧ FileSystemSessionStore.get 10 ⟨[("B", ⟨⟨"AK", "S", "r", "e"⟩, 1, 91, 0⟩)], ["B"]⟩
        100 "B" = (some ⟨⟨"AK", "S", "r", "e"⟩, 1, 100, 0⟩,
            ⟨[("B", ⟨⟨"AK", "S", "r", "e"⟩, 1, 100, 0⟩)], ["B"]⟩) := by
  have hA := get_respects_idle_ttl 10 100 "A" ⟨⟨"AK", "S", "r", "e"⟩, 1, 89, 0⟩
    ⟨[("A", ⟨⟨"AK", "S", "r", "e"⟩, 1, 89, 0⟩)], ["A"]⟩
    ⟨[("A", ⟨⟨"AK", "S", "r", "e"⟩, 1, 89, 0⟩)], ["A"]⟩ (by decide) (by decide)
  have hB := get_respects_idle_ttl 10 100 "B" ⟨⟨"AK", "S", "r", "e"⟩, 1, 91, 0⟩
    ⟨[("B", ⟨⟨"AK", "S", "r", "e"⟩, 1, 91, 0⟩)], ["B"]⟩
    ⟨[("B", ⟨⟨"AK", "S", "r", "e"⟩, 1, 91, 0⟩)], ["B"]⟩ (by decide) (by decide)
  refine ⟨⟨by decide, by decide⟩, ?_, ?_, ?_, ?_⟩
  · rw [hA.1]
    decide
  · rw [hB.1]
    decide
  · rw [hA.2]
    decide
  · rw [hB.2]
    decide

/-! ## Savings job runner (jobs/indexer.py, util/cache.py)

The runner keeps one future per bucket (`_jobs`); `enqueue` consults the
attributes actually defined on `CatalogService` (services/catalog.py):
`SavingsJobRunner.enqueue` calls `self._catalog.mark_pending(bucket)` and
the failure path of `_run_job` calls
`self._catalog.caches.clear_pending(bucket)`, while the `CatalogService`
slots dataclass defines neither attribute, so Python raises
`AttributeError` at those call sites. Exceptions are modelled with
`Except`. -/

/-- Logical object as listed by the SDK (services/deltaglider.py). -/
structure LogicalObject : Type where
  key : String
  original_bytes : Int
  stored_bytes : Int
  compressed : Bool
  modified : Int
  physical_key : String
deriving DecidableEq

/-- Attributes (fields and methods) defined on the `CatalogService`
dataclass in services/catalog.py; `slots=True` forbids any other. -/
def catalogServiceAttrs : List String :=
  ["sdk", "list_cache", "invalidate_bucket_stats", "list_buckets",
   "get_bucket_stats", "bucket_exists", "create_bucket", "delete_bucket",
   "list_objects", "get_metadata", "delete_object", "bulk_delete_objects",
   "upload_object", "refresh_all_bucket_stats", "update_savings"]

/-- Stats world reachable from the runner: the cached snapshots written
through `update_savings` and the `CacheRegistry.pending_jobs` keys
(util/cache.py). -/
structure CatalogWorld : Type where
  cached_stats : List (String × BucketSnapshot)
  pending_jobs : List String
deriving DecidableEq

/-- Embeds `CatalogService.update_savings` as far as the cache is
concerned: push the snapshot into the cached stats. -/
def update_savings (world : CatalogWorld) (bucket : String)
    (snapshot : BucketSnapshot) : CatalogWorld :=
  { world with cached_stats := setAssoc bucket snapshot world.cached_stats }

/-- Embeds `CacheRegistry.clear_pending` (util/cache.py). -/
def clear_pending (world : CatalogWorld) (bucket : String) : CatalogWorld :=
  { world with pending_jobs := world.pending_jobs.erase bucket }

/-- One entry of the runner's `_jobs` map: the task id attached to the
future and whether the future is done. -/
structure JobEntry : Type where
  job_id : String
  done : Bool
deriving DecidableEq

/-- State of `SavingsJobRunner`: the `_jobs` dict. -/
structure SavingsJobRunner : Type where
  jobs : List (String × JobEntry)
deriving DecidableEq

/-- Embeds `SavingsJobRunner.pending`: a bucket is pending while its
future exists and is not done. -/
def SavingsJobRunner.pending (r : SavingsJobRunner) (bucket : String) : Bool :=
  match lookupKey bucket r.jobs with
  | some e => !e.done
  | none => false

/-- Embeds the fresh-submission path of `SavingsJobRunner.enqueue`: the
code first evaluates `self._catalog.mark_pending(bucket)`; on
`CatalogService` that attribute does not exist, so the call raises before
any task is submitted. -/
def enqueue_fresh (r : SavingsJobRunner) (world : CatalogWorld)
    (bucket task_id : String) : Except String (String × SavingsJobRunner × CatalogWorld) :=
  if catalogServiceAttrs.contains "mark_pending" then
    .ok (task_id,
      { jobs := setAssoc bucket ⟨task_id, false⟩ r.jobs },
      { world with pending_jobs := world.pending_jobs ++ [bucket] })
  else
    .error "AttributeError: CatalogService object has no attribute mark_pending"

/-- Embeds `SavingsJobRunner.enqueue`: an existing unfinished future for
the bucket is returned idempotently; otherwise the fresh-submission path
runs. -/
def SavingsJobRunner.enqueue (r : SavingsJobRunner) (world : CatalogWorld)
    (bucket task_id : String) : Except String (String × SavingsJobRunner × CatalogWorld) :=
  match lookupKey bucket r.jobs with
  | some e => if !e.done then .ok (e.job_id, r, world) else enqueue_fresh r world bucket task_id
  | none => enqueue_fresh r world bucket task_id

/-- Embeds `SavingsJobRunner._run_job`: on a successful listing the
snapshot is computed and written through `update_savings`; on a failed
listing the handler evaluates `self._catalog.caches` — absent on
`CatalogService` — so the original error is replaced by an
`AttributeError` and nothing is cleared. -/
def SavingsJobRunner.run_job (world : CatalogWorld) (bucket task_id : String)
    (listing : Except String (List LogicalObject)) (computed_at : Int) :
    Except String String × CatalogWorld :=
  match listing with
  | .ok objs =>
    let original := (objs.map LogicalObject.original_bytes).sum
    let stored := (objs.map LogicalObject.stored_bytes).sum
    let savings : Rat :=
      if original = 0 then 0 else (1 - (stored : Rat) / (original : Rat)) * 100
    let snapshot : BucketSnapshot :=
      { name := bucket, object_count := objs.length, original_bytes := original,
        stored_bytes := stored, savings_pct := savings,
        computed_at := some computed_at }
    (.ok task_id, update_savings world bucket snapshot)
  | .error e =>
    if catalogServiceAttrs.contains "caches" then
      (.error e, clear_pending world bucket)
    else
      (.error "AttributeError: CatalogService object has no attribute caches", world)

/-- C3 (code defect): `enqueue` on a fresh runner never returns a task
id — `CatalogService` defines no `mark_pending` attribute, so the very
first call raises `AttributeError` before submitting anything, and the
bucket is never pending. The double-enqueue idempotency described by the
claim is therefore unreachable. -/
theorem enqueue_crashes_before_submitting (world : CatalogWorld)
    (bucket task_id : String) :
    catalogServiceAttrs.contains "mark_pending" = false
    ∧ SavingsJobRunner.enqueue ⟨[]⟩ world bucket task_id
        = .error "AttributeError: CatalogService object has no attribute mark_pending"
    ∧ SavingsJobRunner.pending ⟨[]⟩ bucket = false := by
  refine ⟨by decide, ?_, rfl⟩
  simp only [SavingsJobRunner.enqueue, lookupKey, enqueue_fresh]
  rw [if_neg (by decide)]

/-- C8 (code defect): `_run_job` does not clear the registry pending mark
in a finally-block. On failure the except-branch itself raises
(`CatalogService` has no `caches` attribute) and leaves the world — both
the cached snapshot and the pending set — entirely unchanged; on success
the pending set is also left untouched (only the snapshot is written). -/
theorem run_job_never_clears_pending (world : CatalogWorld)
    (bucket task_id e : String) (objs : List LogicalObject) (computed_at : Int) :
    catalogServiceAttrs.contains "caches" = false
    ∧ SavingsJobRunner.run_job world bucket task_id (.error e) computed_at
        = (.error "AttributeError: CatalogService object has no attribute caches", world)
    ∧ (SavingsJobRunner.run_job world bucket task_id (.ok objs) computed_at).2.pending_jobs
        = world.pending_jobs := by
  refine ⟨by decide, ?_, rfl⟩
  simp only [SavingsJobRunner.run_job]
  rw [if_neg (by decide)]

/-! ## Purge scheduler (jobs/purge_scheduler.py)

The cross-process advisory lock (`fcntl.flock` with `LOCK_EX | LOCK_NB`)
is modelled by a lock-file state holding the current owner, with its
documented semantics: acquisition succeeds exactly when no process holds
the lock, and a failed non-blocking attempt raises `OSError`, which
`start` treats as the expected non-leader outcome. -/

/-- Handle of the APScheduler `BackgroundScheduler`. -/
structure SchedulerHandle : Type where
  running : Bool
deriving DecidableEq

/-- State of one `PurgeScheduler` instance. -/
structure PurgeScheduler : Type where
  scheduler : Option SchedulerHandle
  lock_held : Bool
  scheduled_jobs : List String
deriving DecidableEq

/-- The shared lock file: `flock` owner, if any. -/
structure LockFile : Type where
  holder : Option Nat
deriving DecidableEq

/-- Embeds the lock-acquisition attempt plus scheduler start of
`PurgeScheduler.start`: on a free lock the process becomes leader,
records its PID, starts the scheduler and registers the interval job and
the immediate startup job; on a held lock the `OSError` path returns
`False` without scheduling anything. -/
def purge_try_acquire (self : PurgeScheduler) (lock : LockFile) (pid : Nat) :
    Bool × PurgeScheduler × LockFile :=
  match lock.holder with
  | none =>
    (true,
      { scheduler := some ⟨true⟩, lock_held := true,
        scheduled_jobs := ["purge_temp_files", "purge_temp_files_startup"] },
      { holder := some pid })
  | some _ => (false, { self with lock_held := false }, lock)

/-- Embeds `PurgeScheduler.start`: an already-running scheduler in this
process short-circuits to `False`; otherwise the lock is attempted. -/
def PurgeScheduler.start (self : PurgeScheduler) (lock : LockFile) (pid : Nat) :
    Bool × PurgeScheduler × LockFile :=
  match self.scheduler with
  | some sch => if sch.running then (false, self, lock) else purge_try_acquire self lock pid
  | none => purge_try_acquire self lock pid

/-- C9: with two `PurgeScheduler` instances sharing one lock file,
`start()` on the first returns `True` (it takes the lease, records its
PID and schedules the sweep jobs) and `start()` on the second, while the
first still holds the lease, returns `False` without scheduling anything
and without disturbing the lease. -/
theorem purge_start_single_leader (i1 i2 : PurgeScheduler) (lock : LockFile)
    (pid1 pid2 : Nat) (h1 : i1.scheduler = none) (h2 : i2.scheduler = none)
    (hfree : lock.holder = none) :
    (PurgeScheduler.start i1 lock pid1).1 = true
    ∧ (PurgeScheduler.start i1 lock pid1).2.2.holder = some pid1
    ∧ (PurgeScheduler.start i1 lock pid1).2.1.scheduled_jobs
        = ["purge_temp_files", "purge_temp_files_startup"]
    ∧ (PurgeScheduler.start i2 (PurgeScheduler.start i1 lock pid1).2.2 pid2).1 = false
    ∧ (PurgeScheduler.start i2 (PurgeScheduler.start i1 lock pid1).2.2 pid2).2.1
        = { i2 with lock_held := false }
    ∧ (PurgeScheduler.start i2 (PurgeScheduler.start i1 lock pid1).2.2 pid2).2.2
        = (PurgeScheduler.start i1 lock pid1).2.2 := by
  have e1 : PurgeScheduler.start i1 lock pid1
      = (true, ⟨some ⟨true⟩, true, ["purge_temp_files", "purge_temp_files_startup"]⟩,
          ⟨some pid1⟩) := by
    simp [PurgeScheduler.start, h1, purge_try_acquire, hfree]
  have e2 : PurgeScheduler.start i2 (⟨some pid1⟩ : LockFile) pid2
      = (false, { i2 with lock_held := false }, ⟨some pid1⟩) := by
    simp [PurgeScheduler.start, h2, purge_try_acquire]
  simp only [e1]
  simp only [e2]
  exact ⟨trivial, trivial, trivial, trivial, trivial, trivial⟩

/-- Witness for `purge_start_single_leader` on two fresh instances and a
free lock file. -/
theorem purge_start_single_leader_witness :
    ((⟨none, false, []⟩ : PurgeScheduler).scheduler = none
      ∧ (⟨none⟩ : LockFile).holder = none)
    ∧ (PurgeScheduler.start ⟨none, false, []⟩ ⟨none⟩ 41).1 = true
    ∧ (PurgeScheduler.start ⟨none, false, []⟩
        (PurgeScheduler.start ⟨none, false, []⟩ ⟨none⟩ 41).2.2 42).1 = false
    ∧ (PurgeScheduler.start ⟨none, false, []⟩
        (PurgeScheduler.start ⟨none, false, []⟩ ⟨none⟩ 41).2.2 42).2.1.scheduled_jobs
        = [] := by
  have h := purge_start_single_leader ⟨none, false, []⟩ ⟨none, false, []⟩ ⟨none⟩ 41 42
    rfl rfl rfl
  refine ⟨⟨rfl, rfl⟩, h.1, h.2.2.2.1, ?_⟩
  rw [h.2.2.2.2.1]

/-! ## Object-listing cache (services/list_cache.py)

The cache key of `_make_key` and the credentials key of
`make_credentials_cache_key` are SHA-256 digests of pipe-joined strings;
per the file header the digest is modelled by the joined string itself.
TTL expiry and LRU eviction of the underlying `cachetools.TTLCache` are
time- and size-driven and are not part of the state transformations
studied here. -/

/-- SHA-256 hex digest truncated to 16 characters, modelled as the hashed
string itself (the code depends on the digest being injective on its
input). -/
def sha256_16 (s : String) : String := s

/-- Embeds `make_credentials_cache_key`: the key hashes only
`endpoint`, `access_key_id` and `region` — deliberately not the secret
access key — and `None` credentials map to a fixed sentinel. -/
def make_credentials_cache_key (credentials : Option Credentials) : String :=
  match credentials with
  | none => "no-credentials"
  | some c => sha256_16 (c.endpoint ++ "|" ++ c.access_key_id ++ "|" ++ c.region)

/-- Embeds `ListObjectsCache._make_key`. -/
def make_key (credentials_key bucket pfx : String) : String :=
  sha256_16 (credentials_key ++ "|" ++ bucket ++ "|" ++ pfx)

/-- Embeds `CachedListing._variant_key`: compression key `all`/`True`/
`False`, search lowered (again) and defaulted to the empty string. -/
def compression_key (compressed : Option Bool) : String :=
  match compressed with
  | none => "all"
  | some true => "True"
  | some false => "False"

def variant_key (sort_order : String) (compressed : Option Bool)
    (search : Option String) : String :=
  sort_order ++ "|" ++ compression_key compressed ++ "|" ++ (search.getD "").toLower

/-- Embeds `CachedListing`. -/
structure CachedListing : Type where
  objects : List LogicalObject
  common_prefixes : List String
  variants : List (String × List LogicalObject)
deriving DecidableEq

/-- Embeds `CachedListing.from_lists`. -/
def CachedListing.from_lists (objects : List LogicalObject)
    (common_prefixes : List String) : CachedListing :=
  ⟨objects, common_prefixes, []⟩

/-- Embeds `CachedListing.get_variant`. -/
def CachedListing.get_variant (cl : CachedListing) (sort_order : String)
    (compressed : Option Bool) (search : Option String) : Option (List LogicalObject) :=
  lookupKey (variant_key sort_order compressed search) cl.variants

/-- Embeds `CachedListing.store_variant`. -/
def CachedListing.store_variant (cl : CachedListing) (sort_order : String)
    (compressed : Option Bool) (search : Option String)
    (objects : List LogicalObject) : CachedListing :=
  { cl with variants :=
      setAssoc (variant_key sort_order compressed search) objects cl.variants }

/-- State of `ListObjectsCache`: the TTL cache plus the three secondary
indexes used for targeted invalidation. -/
structure ListObjectsCache : Type where
  cache : List (String × CachedListing)
  bucket_index : List (String × List String)
  pfx_index : List ((String × String) × List String)
  key_index : List (String × (String × String))
deriving DecidableEq

def ListObjectsCache.empty : ListObjectsCache := ⟨[], [], [], []⟩

/-- Python `set.add` on the index value lists. -/
def addIfAbsent (x : String) (l : List String) : List String :=
  if x ∈ l then l else l ++ [x]

/-- Embeds `ListObjectsCache._register_key`. -/
def register_key (st : ListObjectsCache) (key bucket pfx : String) : ListObjectsCache :=
  { st with
    key_index := setAssoc key (bucket, pfx) st.key_index
    bucket_index :=
      setAssoc bucket (addIfAbsent key ((lookupKey bucket st.bucket_index).getD []))
        st.bucket_index
    pfx_index :=
      setAssoc (bucket, pfx)
        (addIfAbsent key ((lookupKey (bucket, pfx) st.pfx_index).getD []))
        st.pfx_index }

/-- Embeds `ListObjectsCache._remove_key`. -/
def remove_key (st : ListObjectsCache) (key : String) : ListObjectsCache :=
  match lookupKey key st.key_index with
  | none => st
  | some info =>
    let bucket := info.1
    let pfx := info.2
    let key_index := eraseKey key st.key_index
    let bucket_index :=
      match lookupKey bucket st.bucket_index with
      | none => st.bucket_index
      | some bucket_keys =>
        let bucket_keys := bucket_keys.erase key
        if bucket_keys = [] then eraseKey bucket st.bucket_index
        else setAssoc bucket bucket_keys st.bucket_index
    let pfx_index :=
      match lookupKey (bucket, pfx) st.pfx_index with
      | none => st.pfx_index
      | some pfx_keys =>
        let pfx_keys := pfx_keys.erase key
        if pfx_keys = [] then eraseKey (bucket, pfx) st.pfx_index
        else setAssoc (bucket, pfx) pfx_keys st.pfx_index
    { cache := st.cache, bucket_index := bucket_index,
      pfx_index := pfx_index, key_index := key_index }

/-- Embeds `ListObjectsCache.prime_listing`. -/
def prime_listing (st : ListObjectsCache) (credentials_key bucket pfx : String)
    (objects : List LogicalObject) (common_prefixes : List String) : ListObjectsCache :=
  let key := make_key credentials_key bucket pfx
  let cached := CachedListing.from_lists objects common_prefixes
  register_key { st with cache := setAssoc key cached st.cache } key bucket pfx

/-- Embeds `ListObjectsCache.get_listing` (the returned value; the
hit/miss counters are observability only). -/
def ListObjectsCache.get_listing (st : ListObjectsCache)
    (credentials_key bucket pfx : String) : Option CachedListing :=
  lookupKey (make_key credentials_key bucket pfx) st.cache

/-- Embeds `VariantLookup`. -/
structure VariantLookup : Type where
  variant : Option (List LogicalObject)
  base_objects : Option (List LogicalObject)
  common_prefixes : Option (List String)
deriving DecidableEq

/-- Embeds `ListObjectsCache.get_variant`: `None` when no base listing is
cached (the stale key is dropped from the indexes), a variant hit, or the
base data for recomputation. -/
def ListObjectsCache.get_variant (st : ListObjectsCache)
    (credentials_key bucket pfx sort_order : String) (compressed : Option Bool)
    (search : Option String) : Option VariantLookup × ListObjectsCache :=
  let key := make_key credentials_key bucket pfx
  match lookupKey key st.cache with
  | none => (none, remove_key st key)
  | some cached =>
    match cached.get_variant sort_order compressed search with
    | some v => (some ⟨some v, none, some cached.common_prefixes⟩, st)
    | none => (some ⟨none, some cached.objects, some cached.common_prefixes⟩, st)

/-- Embeds `ListObjectsCache.store_variant`. -/
def ListObjectsCache.store_variant (st : ListObjectsCache)
    (credentials_key bucket pfx sort_order : String) (compressed : Option Bool)
    (search : Option String) (objects : List LogicalObject) : ListObjectsCache :=
  let key := make_key credentials_key bucket pfx
  match lookupKey key st.cache with
  | none => st
  | some cached =>
    { st with cache :=
        setAssoc key (cached.store_variant sort_order compressed search objects) st.cache }

/-- Embeds `ListObjectsCache.invalidate_bucket`: pop every key recorded
for the bucket from the cache and from the indexes. -/
def invalidate_bucket (st : ListObjectsCache) (bucket : String) : ListObjectsCache :=
  let keys := (lookupKey bucket st.bucket_index).getD []
  keys.foldl (fun acc k => remove_key { acc with cache := eraseKey k acc.cache } k) st

/-! ### Pipe-joined strings are injective on pipe-free components -/

theorem pipe_split_inj : ∀ (a b r1 r2 : List Char), '|' ∉ a → '|' ∉ b →
    a ++ '|' :: r1 = b ++ '|' :: r2 → a = b ∧ r1 = r2 := by
  intro a
  induction a with
  | nil =>
    intro b r1 r2 _ hb h
    cases b with
    | nil =>
      simp only [List.nil_append] at h
      injection h with _ h2
      exact ⟨rfl, h2⟩
    | cons x bs =>
      simp only [List.nil_append, List.cons_append] at h
      injection h with h1 _
      exact absurd (h1 ▸ List.mem_cons_self x bs) hb
  | cons x as ih =>
    intro b r1 r2 ha hb h
    cases b with
    | nil =>
      simp only [List.cons_append, List.nil_append] at h
      injection h with h1 _
      exact absurd (h1 ▸ List.mem_cons_self x as) ha
    | cons y bs =>
      simp only [List.cons_append] at h
      injection h with h1 h2
      have ha' : '|' ∉ as := fun hm => ha (List.mem_cons_of_mem _ hm)
      have hb' : '|' ∉ bs := fun hm => hb (List.mem_cons_of_mem _ hm)
      obtain ⟨he, hr⟩ := ih bs r1 r2 ha' hb' h2
      exact ⟨by rw [h1, he], hr⟩

theorem pipe_join_inj (a1 b1 c1 a2 b2 c2 : String)
    (ha1 : '|' ∉ a1.data) (hb1 : '|' ∉ b1.data)
    (ha2 : '|' ∉ a2.data) (hb2 : '|' ∉ b2.data)
    (h : a1 ++ "|" ++ b1 ++ "|" ++ c1 = a2 ++ "|" ++ b2 ++ "|" ++ c2) :
    a1 = a2 ∧ b1 = b2 ∧ c1 = c2 := by
  have hd := congrArg String.data h
  simp only [String.data_append] at hd
  simp only [List.append_assoc, List.singleton_append] at hd
  obtain ⟨h1, h2⟩ := pipe_split_inj a1.data a2.data _ _ ha1 ha2 hd
  obtain ⟨h3, h4⟩ := pipe_split_inj b1.data b2.data _ _ hb1 hb2 h2
  exact ⟨String.ext h1, String.ext h3, String.ext h4⟩

theorem string_append_right_cancel (x y s : String) (h : x ++ s = y ++ s) : x = y := by
  have hd := congrArg String.data h
  simp only [String.data_append] at hd
  exact String.ext (List.append_cancel_right hd)

/-- C1 counterexample: two credential sets that differ only in the secret
access key are distinct, yet `make_credentials_cache_key` — which hashes
only endpoint, access key id and region — derives the same cache key for
both, and a base listing primed under the first is returned verbatim by
`get_listing` under the second. -/
theorem credentials_key_ignores_secret :
    ((⟨"AKIA", "secret-1", "us-east-1", "s3.local"⟩ : Credentials)
        ≠ ⟨"AKIA", "secret-2", "us-east-1", "s3.local"⟩)
    ∧ make_credentials_cache_key (some ⟨"AKIA", "secret-1", "us-east-1", "s3.local"⟩)
        = make_credentials_cache_key (some ⟨"AKIA", "secret-2", "us-east-1", "s3.local"⟩)
    ∧ ListObjectsCache.get_listing
        (prime_listing ListObjectsCache.empty
          (make_credentials_cache_key (some ⟨"AKIA", "secret-1", "us-east-1", "s3.local"⟩))
          "releases" "" [⟨"a.txt", 1, 1, false, 0, "a.txt"⟩] [])
        (make_credentials_cache_key (some ⟨"AKIA", "secret-2", "us-east-1", "s3.local"⟩))
        "releases" ""
        = some (CachedListing.from_lists [⟨"a.txt", 1, 1, false, 0, "a.txt"⟩] []) := by
  exact ⟨by decide, rfl, by decide⟩

/-- C1 (amended): the listing-cache credentials key depends on exactly
`(endpoint, access_key_id, region)`: credential sets agreeing on those
three fields — in particular sets differing only in the secret access
key — derive equal keys and share cache entries, while sets differing in
any of those three (separator-free) fields derive distinct keys and a
base listing primed under one is never returned by `get_listing` under
the other. -/
theorem credentials_key_isolates_by_non_secret_fields (c1 c2 : Credentials)
    (hp1 : '|' ∉ c1.endpoint.data) (hp2 : '|' ∉ c1.access_key_id.data)
    (hp3 : '|' ∉ c2.endpoint.data) (hp4 : '|' ∉ c2.access_key_id.data) :
    (make_credentials_cache_key (some c1) = make_credentials_cache_key (some c2)
      ↔ c1.endpoint = c2.endpoint ∧ c1.access_key_id = c2.access_key_id
          ∧ c1.region = c2.region)
    ∧ (¬ (c1.endpoint = c2.endpoint ∧ c1.access_key_id = c2.access_key_id
          ∧ c1.region = c2.region) →
        ∀ (bucket pfx : String) (objects : List LogicalObject)
          (common_prefixes : List String),
          ListObjectsCache.get_listing
              (prime_listing ListObjectsCache.empty
                (make_credentials_cache_key (some c1)) bucket pfx objects
                common_prefixes)
              (make_credentials_cache_key (some c2)) bucket pfx = none) := by
  have hiff : make_credentials_cache_key (some c1) = make_credentials_cache_key (some c2)
      ↔ c1.endpoint = c2.endpoint ∧ c1.access_key_id = c2.access_key_id
          ∧ c1.region = c2.region := by
    constructor
    · intro h
      exact pipe_join_inj _ _ _ _ _ _ hp1 hp2 hp3 hp4 h
    · rintro ⟨h1, h2, h3⟩
      simp only [make_credentials_cache_key, sha256_16, h1, h2, h3]
  refine ⟨hiff, ?_⟩
  intro hne bucket pfx objects common_prefixes
  have hkey : make_credentials_cache_key (some c1) ≠ make_credentials_cache_key (some c2) :=
    fun h => hne (hiff.mp h)
  have hfull : make_key (make_credentials_cache_key (some c1)) bucket pfx
      ≠ make_key (make_credentials_cache_key (some c2)) bucket pfx := by
    intro h
    simp only [make_key, sha256_16, String.append_assoc] at h
    exact hkey (string_append_right_cancel _ _ _ h)
  simp only [ListObjectsCache.get_listing, prime_listing, register_key,
    CachedListing.from_lists, setAssoc, lookupKey, if_neg hfull]

/-- Witness for `credentials_key_isolates_by_non_secret_fields`:
credential sets differing in the access key id, with separator-free
fields, never share a primed listing. -/
theorem credentials_key_isolates_by_non_secret_fields_witness :
    ('|' ∉ ("s3.local" : String).data ∧ '|' ∉ ("AKIA1" : String).data
      ∧ '|' ∉ ("AKIA2" : String).data
      ∧ ¬ (("s3.local" : String) = "s3.local" ∧ ("AKIA1" : String) = "AKIA2"
            ∧ ("us-east-1" : String) = "us-east-1"))
    ∧ ListObjectsCache.get_listing
        (prime_listing ListObjectsCache.empty
          (make_credentials_cache_key (some ⟨"AKIA1", "S", "us-east-1", "s3.local"⟩))
          "releases" "" [] [])
        (make_credentials_cache_key (some ⟨"AKIA2", "S", "us-east-1", "s3.local"⟩))
        "releases" "" = none := by
  have h := credentials_key_isolates_by_non_secret_fields
    ⟨"AKIA1", "S", "us-east-1", "s3.local"⟩ ⟨"AKIA2", "S", "us-east-1", "s3.local"⟩
    (by decide) (by decide) (by decide) (by decide)
  exact ⟨⟨by decide, by decide, by decide, by decide⟩,
    h.2 (by decide) "releases" "" [] []⟩

theorem eraseKey_sublist {κ β : Type} [DecidableEq κ] (k : κ) :
    ∀ l : List (κ × β), List.Sublist (eraseKey k l) l := by
  intro l
  induction l with
  | nil => exact List.Sublist.refl _
  | cons p rest ih =>
    obtain ⟨k', v⟩ := p
    by_cases h : k' = k
    · simp only [eraseKey, if_pos h]
      exact (List.sublist_cons_self _ _)
    · simp only [eraseKey, if_neg h]
      exact ih.cons₂ _

theorem assocKeys_eraseKey_nodup {κ β : Type} [DecidableEq κ] (k : κ)
    (l : List (κ × β)) (hnd : (assocKeys l).Nodup) :
    (assocKeys (eraseKey k l)).Nodup :=
  hnd.sublist (List.Sublist.map Prod.fst (eraseKey_sublist k l))

theorem remove_key_cache (st : ListObjectsCache) (k : String) :
    (remove_key st k).cache = st.cache := by
  simp only [remove_key]
  split
  · rfl
  · rfl

theorem remove_key_keyIndex (st : ListObjectsCache) (k q : String)
    (hnd : (assocKeys st.key_index).Nodup) :
    lookupKey q (remove_key st k).key_index
      = if q = k then none else lookupKey q st.key_index := by
  simp only [remove_key]
  split
  · rename_i hnone
    by_cases hq : q = k
    · subst hq
      simp [hnone]
    · simp [hq]
  · rename_i info hsome
    by_cases hq : q = k
    · subst hq
      simp only [if_pos rfl]
      exact lookupKey_eraseKey_self q st.key_index hnd
    · simp only [if_neg hq]
      exact lookupKey_eraseKey_ne k q (fun h => hq h.symm) st.key_index

theorem remove_key_keyIndex_nodup (st : ListObjectsCache) (k : String)
    (hnd : (assocKeys st.key_index).Nodup) :
    (assocKeys (remove_key st k).key_index).Nodup := by
  simp only [remove_key]
  split
  · exact hnd
  · exact assocKeys_eraseKey_nodup k st.key_index hnd

theorem invalidate_fold_pointwise :
    ∀ (ks : List String) (acc : ListObjectsCache),
      (assocKeys acc.cache).Nodup → (assocKeys acc.key_index).Nodup →
      ∀ q : String,
        (lookupKey q (ks.foldl
            (fun acc k => remove_key { acc with cache := eraseKey k acc.cache } k)
            acc).cache
          = if q ∈ ks then none else lookupKey q acc.cache)
        ∧ (lookupKey q (ks.foldl
            (fun acc k => remove_key { acc with cache := eraseKey k acc.cache } k)
            acc).key_index
          = if q ∈ ks then none else lookupKey q acc.key_index) := by
  intro ks
  induction ks with
  | nil =>
    intro acc _ _ q
    simp
  | cons k rest ih =>
    intro acc hc hk q
    have hstep_cache : ∀ q' : String,
        lookupKey q' (remove_key { acc with cache := eraseKey k acc.cache } k).cache
          = if q' = k then none else lookupKey q' acc.cache := by
      intro q'
      rw [remove_key_cache]
      by_cases hq : q' = k
      · subst hq
        simp only [if_pos rfl]
        exact lookupKey_eraseKey_self q' acc.cache hc
      · simp only [if_neg hq]
        exact lookupKey_eraseKey_ne k q' (fun h => hq h.symm) acc.cache
    have hstep_key : ∀ q' : String,
        lookupKey q' (remove_key { acc with cache := eraseKey k acc.cache } k).key_index
          = if q' = k then none else lookupKey q' acc.key_index :=
      fun q' => remove_key_keyIndex _ k q' hk
    have hc' : (assocKeys (remove_key { acc with cache := eraseKey k acc.cache } k).cache).Nodup := by
      rw [remove_key_cache]
      exact assocKeys_eraseKey_nodup k acc.cache hc
    have hk' : (assocKeys (remove_key { acc with cache := eraseKey k acc.cache } k).key_index).Nodup :=
      remove_key_keyIndex_nodup _ k hk
    have hrec := ih (remove_key { acc with cache := eraseKey k acc.cache } k) hc' hk' q
    simp only [List.foldl_cons]
    constructor
    · rw [hrec.1, hstep_cache q]
      by_cases hq : q ∈ k :: rest
      · rcases List.mem_cons.mp hq with h | h
        · subst h
          by_cases hr : q ∈ rest
          · simp [hr, hq]
          · simp [hr, hq]
        · simp [h, hq]
      · have h1 : q ∉ rest := fun hh => hq (List.mem_cons_of_mem _ hh)
        have h2 : ¬ q = k := fun hh => hq (hh ▸ List.mem_cons_self _ _)
        simp [h1, h2, hq]
    · rw [hrec.2, hstep_key q]
      by_cases hq : q ∈ k :: rest
      · rcases List.mem_cons.mp hq with h | h
        · subst h
          by_cases hr : q ∈ rest
          · simp [hr, hq]
          · simp [hr, hq]
        · simp [h, hq]
      · have h1 : q ∉ rest := fun hh => hq (List.mem_cons_of_mem _ hh)
        have h2 : ¬ q = k := fun hh => hq (hh ▸ List.mem_cons_self _ _)
        simp [h1, h2, hq]


/-- Consistency of the listing cache with its secondary indexes: no
duplicate bindings; every key listed in the bucket index is registered to
that bucket in the key index; every registered key is listed under its
bucket; and every cached key is registered. The cache operations maintain
this under the cache lock. -/
def ListCacheWF (st : ListObjectsCache) : Prop :=
  (assocKeys st.cache).Nodup
  ∧ (assocKeys st.key_index).Nodup
  ∧ (∀ e ∈ st.bucket_index, ∀ k ∈ e.2,
      (lookupKey k st.key_index).map Prod.fst = some e.1)
  ∧ (∀ e ∈ st.key_index, e.1 ∈ (lookupKey e.2.1 st.bucket_index).getD [])
  ∧ (∀ e ∈ st.cache, (lookupKey e.1 st.key_index).isSome = true)

/-- C7: `invalidate_bucket B` removes from the cache (and unregisters)
every key registered under bucket `B` — so a subsequent `get_listing` for
`B` under any credentials key and prefix misses (its cache key, when
present at all, is registered to `B`) — while every key registered to a
different bucket keeps exactly its cached entry and its registration. -/
theorem invalidate_bucket_exact (st : ListObjectsCache) (B : String)
    (hwf : ListCacheWF st) :
    (∀ k p, lookupKey k st.key_index = some (B, p) →
        lookupKey k (invalidate_bucket st B).cache = none
        ∧ lookupKey k (invalidate_bucket st B).key_index = none)
    ∧ (∀ k b p, b ≠ B → lookupKey k st.key_index = some (b, p) →
        lookupKey k (invalidate_bucket st B).cache = lookupKey k st.cache
        ∧ lookupKey k (invalidate_bucket st B).key_index = some (b, p))
    ∧ (∀ ck p,
        (∀ b' p', lookupKey (make_key ck B p) st.key_index = some (b', p') → b' = B) →
        (invalidate_bucket st B).get_listing ck B p = none) := by
  obtain ⟨hndc, hndk, hsound, hcomplete, hreg⟩ := hwf
  have hinv : ∀ q : String,
      lookupKey q (invalidate_bucket st B).cache
        = (if q ∈ (lookupKey B st.bucket_index).getD [] then none
            else lookupKey q st.cache)
      ∧ lookupKey q (invalidate_bucket st B).key_index
        = (if q ∈ (lookupKey B st.bucket_index).getD [] then none
            else lookupKey q st.key_index) :=
    fun q => invalidate_fold_pointwise ((lookupKey B st.bucket_index).getD [])
      st hndc hndk q
  have hmem_of_reg : ∀ k p, lookupKey k st.key_index = some (B, p) →
      k ∈ (lookupKey B st.bucket_index).getD [] := by
    intro k p hk
    exact hcomplete (k, (B, p)) (lookupKey_mem_of_some k (B, p) st.key_index hk)
  refine ⟨?_, ?_, ?_⟩
  · intro k p hk
    have hmem := hmem_of_reg k p hk
    rw [(hinv k).1, (hinv k).2, if_pos hmem, if_pos hmem]
    exact ⟨rfl, rfl⟩
  · intro k b p hb hk
    have hmem : k ∉ (lookupKey B st.bucket_index).getD [] := by
      intro hm
      cases hlb : lookupKey B st.bucket_index with
      | none => rw [hlb] at hm; cases hm
      | some ks =>
        rw [hlb] at hm
        have := hsound (B, ks) (lookupKey_mem_of_some B ks st.bucket_index hlb) k hm
        rw [hk] at this
        simp only [Option.map_some] at this
        injection this with hBb
        exact hb hBb
    rw [(hinv k).1, (hinv k).2, if_neg hmem, if_neg hmem]
    exact ⟨rfl, hk⟩
  · intro ck p hcollide
    simp only [ListObjectsCache.get_listing]
    cases hc : lookupKey (make_key ck B p) st.cache with
    | none =>
      rw [(hinv (make_key ck B p)).1]
      split
      · rfl
      · exact hc
    | some cl =>
      have hsomek := hreg (make_key ck B p, cl)
        (lookupKey_mem_of_some _ cl st.cache hc)
      cases hbp : lookupKey (make_key ck B p) st.key_index with
      | none => rw [hbp] at hsomek; cases hsomek
      | some info =>
        obtain ⟨b', p'⟩ := info
        have hB := hcollide b' p' hbp
        rw [hB] at hbp
        have hmem := hmem_of_reg (make_key ck B p) p' hbp
        rw [(hinv (make_key ck B p)).1, if_pos hmem]

/-- Sample cache: base listings primed for bucket `releases` under two
prefixes and for bucket `logs`, all under one credentials key. -/
def c7SampleCache : ListObjectsCache :=
  prime_listing
    (prime_listing
      (prime_listing ListObjectsCache.empty "ck" "releases" "" [] [])
      "ck" "releases" "v1/" [] [])
    "ck" "logs" "" [] []

/-- Witness for `invalidate_bucket_exact` on `c7SampleCache`:
invalidating `releases` removes both of its entries, leaves the `logs`
entry unchanged, and a subsequent `get_listing` for `releases` misses. -/
theorem invalidate_bucket_exact_witness :
    ListCacheWF c7SampleCache
    ∧ lookupKey (make_key "ck" "releases" "")
        (invalidate_bucket c7SampleCache "releases").cache = none
    ∧ lookupKey (make_key "ck" "releases" "v1/")
        (invalidate_bucket c7SampleCache "releases").cache = none
    ∧ lookupKey (make_key "ck" "logs" "")
          (invalidate_bucket c7SampleCache "releases").cache
        = lookupKey (make_key "ck" "logs" "") c7SampleCache.cache
    ∧ lookupKey (make_key "ck" "logs" "")
          (invalidate_bucket c7SampleCache "releases").key_index
        = some ("logs", "")
    ∧ (invalidate_bucket c7SampleCache "releases").get_listing "ck" "releases" "" = none := by
  have hwf : ListCacheWF c7SampleCache := by
    refine ⟨by decide, by decide, by decide, by decide, by decide⟩
  have h := invalidate_bucket_exact c7SampleCache "releases" hwf
  refine ⟨hwf, (h.1 (make_key "ck" "releases" "") "" (by decide)).1,
    (h.1 (make_key "ck" "releases" "v1/") "v1/" (by decide)).1,
    (h.2.1 (make_key "ck" "logs" "") "logs" "" (by decide) (by decide)).1,
    (h.2.1 (make_key "ck" "logs" "") "logs" "" (by decide) (by decide)).2, ?_⟩
  refine h.2.2 "ck" "" ?_
  intro b' p' hb
  have h2 := (show lookupKey (make_key "ck" "releases" "") c7SampleCache.key_index
      = some ("releases", "") from by decide).symm.trans hb
  injection h2 with h3
  exact (congrArg Prod.fst h3).symm

/-! ## Filtering and sorting of listings (services/catalog.py
`_filter_and_sort`) together with the variant memoisation of
`CachedListing`.

Python `list.sort(key=..., reverse=...)` is a stable sort; it is embedded
as `List.mergeSort` (stable) with the per-order comparator, where
`reverse=True` becomes the flipped comparator (equal elements keep their
input order either way, exactly as CPython does). Python `str.lower` is
embedded as `String.toLower` (both lower-case ASCII letters only in the
relevant alphabet). Python substring membership `a in b` is contiguous
infix on the character lists. -/

/-- Embeds `ObjectSortOrder` (util/types.py). -/
inductive ObjectSortOrder : Type
  | name_asc
  | name_desc
  | modified_desc
  | modified_asc
  | size_asc
  | size_desc
deriving DecidableEq

/-- Python `Enum.name`, the string sent to the cache as `sort_key`. -/
def ObjectSortOrder.name : ObjectSortOrder → String
  | .name_asc => "name_asc"
  | .name_desc => "name_desc"
  | .modified_desc => "modified_desc"
  | .modified_asc => "modified_asc"
  | .size_asc => "size_asc"
  | .size_desc => "size_desc"

/-- Comparator of `_filter_and_sort`: sort field selected by the order,
with `reverse = True` for the descending variants. -/
def sortLE (sort_order : ObjectSortOrder) (a b : LogicalObject) : Bool :=
  match sort_order with
  | .name_asc => decide (a.key ≤ b.key)
  | .name_desc => decide (b.key ≤ a.key)
  | .size_asc => decide (a.original_bytes ≤ b.original_bytes)
  | .size_desc => decide (b.original_bytes ≤ a.original_bytes)
  | .modified_asc => decide (a.modified ≤ b.modified)
  | .modified_desc => decide (b.modified ≤ a.modified)

/-- Python truthiness of the search key: `None` and the empty string are
falsy. -/
def searchTruthy (search_key : Option String) : Bool :=
  !(search_key.getD "" == "")

/-- The filter of `_filter_and_sort`: keep an object when the compressed
flag matches (or no flag is given) and the search needle occurs in the
lower-cased key (or no needle is given). -/
def objectPred (compressed : Option Bool) (search_key : Option String)
    (obj : LogicalObject) : Bool :=
  (match compressed with
    | none => true
    | some c => obj.compressed == c)
  && (!searchTruthy search_key
      || decide (List.IsInfix (search_key.getD "").data obj.key.toLower.data))

/-- The filtered list of `_filter_and_sort`: the fast path copies the
input when there is nothing to filter on. -/
def filtered_objects (objects : List LogicalObject) (compressed : Option Bool)
    (search_key : Option String) : List LogicalObject :=
  if compressed = none ∧ searchTruthy search_key = false then objects
  else objects.filter (objectPred compressed search_key)

/-- Embeds `_filter_and_sort` (services/catalog.py). -/
def filter_and_sort (objects : List LogicalObject) (sort_order : ObjectSortOrder)
    (compressed : Option Bool) (search_key : Option String) : List LogicalObject :=
  (filtered_objects objects compressed search_key).mergeSort (sortLE sort_order)

/-- One `getVariant` request as issued by `list_objects`. -/
structure VariantReq : Type where
  sort_order : ObjectSortOrder
  compressed : Option Bool
  search : Option String
deriving DecidableEq

/-- Embeds `search_key = search.lower() if search else None` from
`ObjectListingService.list_objects`. -/
def canonical_search (search : Option String) : Option String :=
  match search with
  | none => none
  | some s => if s = "" then none else some s.toLower

/-- Embeds the variant plumbing of `list_objects` over one primed
listing: a cached variant is returned as is; otherwise the variant is
derived by `_filter_and_sort` and memoised. The boolean records whether a
derivation was performed (the injected-counter observation). -/
def serve_variant (cl : CachedListing) (r : VariantReq) :
    List LogicalObject × CachedListing × Bool :=
  let sort_key := r.sort_order.name
  let search_key := canonical_search r.search
  match cl.get_variant sort_key r.compressed search_key with
  | some v => (v, cl, false)
  | none =>
    let sorted := filter_and_sort cl.objects r.sort_order r.compressed search_key
    (sorted, cl.store_variant sort_key r.compressed search_key sorted, true)

/-- Runs a sequence of variant requests, counting derivations. -/
def run_requests : CachedListing → Nat → List VariantReq → CachedListing × Nat
  | cl, acc, [] => (cl, acc)
  | cl, acc, r :: rs =>
    run_requests (serve_variant cl r).2.1
      (acc + (if (serve_variant cl r).2.2 then 1 else 0)) rs

theorem char_toNat_ofNat_valid {n : Nat} (h : n.isValidChar) :
    (Char.ofNat n).toNat = n := by
  rw [Char.ofNat, dif_pos h]
  simp [Char.ofNatAux, Char.toNat, UInt32.toNat]

theorem char_toLower_idem (c : Char) : c.toLower.toLower = c.toLower := by
  unfold Char.toLower
  by_cases h : c.toNat ≥ 65 ∧ c.toNat ≤ 90
  · rw [if_pos h]
    have hv : (c.toNat + 32).isValidChar := Or.inl (by omega)
    have ht : (Char.ofNat (c.toNat + 32)).toNat = c.toNat + 32 :=
      char_toNat_ofNat_valid hv
    rw [if_neg]
    rw [ht]
    omega
  · rw [if_neg h, if_neg h]

theorem string_toLower_data (s : String) :
    s.toLower.data = s.data.map Char.toLower := by
  simp only [String.toLower, String.map_eq]

theorem string_toLower_idem (s : String) : s.toLower.toLower = s.toLower := by
  apply String.ext
  rw [string_toLower_data, string_toLower_data, List.map_map]
  have hc : Char.toLower ∘ Char.toLower = Char.toLower := funext char_toLower_idem
  rw [hc]

theorem sortLE_trans (o : ObjectSortOrder) (a b c : LogicalObject)
    (hab : sortLE o a b) (hbc : sortLE o b c) : sortLE o a c := by
  cases o <;>
    simp only [sortLE, decide_eq_true_eq] at hab hbc ⊢ <;>
    exact le_trans (by assumption) (by assumption)

theorem sortLE_total (o : ObjectSortOrder) (a b : LogicalObject) :
    sortLE o a b || sortLE o b a := by
  cases o <;>
    simp only [sortLE, Bool.or_eq_true, decide_eq_true_eq] <;>
    exact le_total _ _

theorem sort_order_name_inj (a b : ObjectSortOrder) (h : a.name = b.name) : a = b := by
  cases a <;> cases b <;> revert h <;> decide

theorem compression_key_inj (a b : Option Bool)
    (h : compression_key a = compression_key b) : a = b := by
  cases a with
  | none =>
    cases b with
    | none => rfl
    | some vb => cases vb <;> revert h <;> decide
  | some va =>
    cases b with
    | none => cases va <;> revert h <;> decide
    | some vb => cases va <;> cases vb <;> revert h <;> decide

theorem sort_order_name_pipe_free (o : ObjectSortOrder) :
    '|' ∉ (ObjectSortOrder.name o).data := by
  cases o <;> decide

theorem compression_key_pipe_free (c : Option Bool) :
    '|' ∉ (compression_key c).data := by
  cases c with
  | none => decide
  | some v => cases v <;> decide

theorem variant_key_decompose (s1 s2 : ObjectSortOrder) (c1 c2 : Option Bool)
    (k1 k2 : Option String)
    (h : variant_key s1.name c1 k1 = variant_key s2.name c2 k2) :
    s1 = s2 ∧ c1 = c2 ∧ (k1.getD "").toLower = (k2.getD "").toLower := by
  simp only [variant_key] at h
  obtain ⟨h1, h2, h3⟩ := pipe_join_inj _ _ _ _ _ _
    (sort_order_name_pipe_free s1) (compression_key_pipe_free c1)
    (sort_order_name_pipe_free s2) (compression_key_pipe_free c2) h
  exact ⟨sort_order_name_inj s1 s2 h1, compression_key_inj c1 c2 h2, h3⟩

theorem filtered_objects_congr (objects : List LogicalObject) (c : Option Bool)
    (k1 k2 : Option String) (h : k1.getD "" = k2.getD "") :
    filtered_objects objects c k1 = filtered_objects objects c k2 := by
  have hp : objectPred c k1 = objectPred c k2 := by
    funext obj
    simp only [objectPred, searchTruthy, h]
  simp only [filtered_objects, searchTruthy, h, hp]

theorem filter_and_sort_congr (objects : List LogicalObject) (o : ObjectSortOrder)
    (c : Option Bool) (k1 k2 : Option String) (h : k1.getD "" = k2.getD "") :
    filter_and_sort objects o c k1 = filter_and_sort objects o c k2 := by
  simp only [filter_and_sort, filtered_objects_congr objects c k1 k2 h]

theorem mem_setAssoc {κ β : Type} [DecidableEq κ] (k : κ) (v : β) (e : κ × β) :
    ∀ l : List (κ × β), e ∈ setAssoc k v l → e = (k, v) ∨ e ∈ l := by
  intro l
  induction l with
  | nil =>
    intro h
    simp only [setAssoc, List.mem_singleton] at h
    exact Or.inl h
  | cons p rest ih =>
    intro h
    obtain ⟨k', v'⟩ := p
    simp only [setAssoc] at h
    by_cases he : k' = k
    · rw [if_pos he] at h
      rcases List.mem_cons.mp h with h | h
      · exact Or.inl h
      · exact Or.inr (List.mem_cons_of_mem _ h)
    · rw [if_neg he] at h
      rcases List.mem_cons.mp h with h | h
      · exact Or.inr (h ▸ List.mem_cons_self _ _)
      · rcases ih h with h | h
        · exact Or.inl h
        · exact Or.inr (List.mem_cons_of_mem _ h)

/-- The variant table only ever holds correctly derived variants: every
stored entry is keyed by some canonical request and holds exactly the
filter-and-sort of the base listing for it. -/
def GoodVariants (base : List LogicalObject) (cps : List String)
    (cl : CachedListing) : Prop :=
  cl.objects = base ∧ cl.common_prefixes = cps
  ∧ ∀ e ∈ cl.variants, ∃ (s : ObjectSortOrder) (c : Option Bool) (k : Option String),
      (k.getD "").toLower = k.getD ""
      ∧ e.1 = variant_key s.name c k
      ∧ e.2 = filter_and_sort base s c k

theorem canonical_search_lowered (search : Option String) :
    ((canonical_search search).getD "").toLower = (canonical_search search).getD "" := by
  cases search with
  | none =>
    apply String.ext
    rw [string_toLower_data]
    rfl
  | some s =>
    simp only [canonical_search]
    by_cases he : s = ""
    · rw [if_pos he]
      apply String.ext
      rw [string_toLower_data]
      rfl
    · rw [if_neg he]
      exact string_toLower_idem s

theorem serve_variant_spec (base : List LogicalObject) (cps : List String)
    (cl : CachedListing) (r : VariantReq) (hgood : GoodVariants base cps cl) :
    (serve_variant cl r).1
      = filter_and_sort base r.sort_order r.compressed (canonical_search r.search)
    ∧ GoodVariants base cps (serve_variant cl r).2.1 := by
  obtain ⟨hobj, hcps, hvar⟩ := hgood
  simp only [serve_variant]
  cases hv : cl.get_variant r.sort_order.name r.compressed (canonical_search r.search) with
  | none =>
    refine ⟨by rw [hobj], ?_, ?_, ?_⟩
    · simp only [CachedListing.store_variant]
      exact hobj
    · simp only [CachedListing.store_variant]
      exact hcps
    · intro e he
      simp only [CachedListing.store_variant] at he
      rcases mem_setAssoc _ _ e cl.variants he with h | h
      · refine ⟨r.sort_order, r.compressed, canonical_search r.search,
          canonical_search_lowered r.search, ?_, ?_⟩
        · rw [h]
        · rw [h]
          simp only [hobj]
      · exact hvar e h
  | some v =>
    refine ⟨?_, hobj, hcps, hvar⟩
    simp only [CachedListing.get_variant] at hv
    have hmem := lookupKey_mem_of_some _ v cl.variants hv
    obtain ⟨s, c, k, hlow, hkey, hval⟩ := hvar _ hmem
    have hkey2 : variant_key r.sort_order.name r.compressed (canonical_search r.search)
        = variant_key s.name c k := hkey
    have hval2 : v = filter_and_sort base s c k := hval
    obtain ⟨hs, hc, hk⟩ := variant_key_decompose r.sort_order s r.compressed c
      (canonical_search r.search) k hkey2
    have hsearch : k.getD "" = (canonical_search r.search).getD "" :=
      hlow.symm.trans (hk.symm.trans (canonical_search_lowered r.search))
    rw [hval2, ← hs, ← hc]
    exact filter_and_sort_congr base r.sort_order r.compressed k
      (canonical_search r.search) hsearch

theorem run_requests_good (base : List LogicalObject) (cps : List String) :
    ∀ (rs : List VariantReq) (cl : CachedListing) (acc : Nat),
      GoodVariants base cps cl → GoodVariants base cps (run_requests cl acc rs).1 := by
  intro rs
  induction rs with
  | nil => intro cl acc h; exact h
  | cons r rest ih =>
    intro cl acc h
    exact ih _ _ (serve_variant_spec base cps cl r h).2

theorem serve_variant_idem (cl : CachedListing) (r : VariantReq) :
    serve_variant (serve_variant cl r).2.1 r
      = ((serve_variant cl r).1, (serve_variant cl r).2.1, false) := by
  simp only [serve_variant]
  cases hv : cl.get_variant r.sort_order.name r.compressed (canonical_search r.search) with
  | none =>
    simp only [CachedListing.get_variant, CachedListing.store_variant,
      lookupKey_setAssoc_self]
  | some v =>
    simp only [hv]

theorem enum_pair_lt {α : Type} (l : List α) (i j : Nat) (x y : α)
    (h : List.Sublist [(i, x), (j, y)] l.enum) : i < j := by
  have h1 : (l.enum.map Prod.fst).Pairwise (· < ·) := by
    rw [List.enum_map_fst]
    exact List.pairwise_lt_range l.length
  have hp : l.enum.Pairwise (fun a b => a.1 < b.1) := List.pairwise_map.mp h1
  have h2 : List.Pairwise (fun a b => a.1 < b.1) [(i, x), (j, y)] := hp.sublist h
  have h3 := (@List.pairwise_pair (Nat × α) (fun a b => a.1 < b.1) (i, x) (j, y)).mp h2
  exact h3

theorem enumLE_of_tie {α : Type} (le : α → α → Bool) (i j : Nat) (x y : α)
    (hxy : le x y = true) (hyx : le y x = true) (hij : i ≤ j) :
    List.enumLE le (i, x) (j, y) = true := by
  simp [List.enumLE, hxy, hyx, hij]

/-- C2: over one primed base listing, after any history of variant
requests, a `getVariant` request is answered with exactly
`_filter_and_sort` of the primed base (filter by compressed flag and
case-insensitive substring on the key, then stable sort by the requested
field and direction); immediately re-requesting the same variant returns
the stored list with no re-derivation and no state change; and the
derived variant is the stable sort of the filtered base: it equals the
index-tagged merge sort, is a permutation of the filtered base, is
pairwise ordered by the requested comparator, and any two tied elements
keep their relative base order. -/
theorem variant_requests_correct (base : List LogicalObject) (cps : List String)
    (ops : List VariantReq) (r : VariantReq) :
    ((serve_variant (run_requests (CachedListing.from_lists base cps) 0 ops).1 r).1
      = filter_and_sort base r.sort_order r.compressed (canonical_search r.search))
    ∧ (serve_variant
        (serve_variant (run_requests (CachedListing.from_lists base cps) 0 ops).1 r).2.1 r
      = ((serve_variant (run_requests (CachedListing.from_lists base cps) 0 ops).1 r).1,
         (serve_variant (run_requests (CachedListing.from_lists base cps) 0 ops).1 r).2.1,
         false))
    ∧ (filtered_objects base r.compressed (canonical_search r.search)
        = base.filter (objectPred r.compressed (canonical_search r.search)))
    ∧ (filter_and_sort base r.sort_order r.compressed (canonical_search r.search)
        = (List.mergeSort
            ((filtered_objects base r.compressed (canonical_search r.search)).enum)
            (List.enumLE (sortLE r.sort_order))).map Prod.snd)
    ∧ List.Perm (filter_and_sort base r.sort_order r.compressed (canonical_search r.search))
        (filtered_objects base r.compressed (canonical_search r.search))
    ∧ List.Pairwise (fun a b => sortLE r.sort_order a b = true)
        (filter_and_sort base r.sort_order r.compressed (canonical_search r.search))
    ∧ (∀ (i j : Nat) (x y : LogicalObject),
        List.Sublist [(i, x), (j, y)]
          ((filtered_objects base r.compressed (canonical_search r.search)).enum) →
        sortLE r.sort_order x y = true → sortLE r.sort_order y x = true →
        List.Sublist [(i, x), (j, y)]
          (List.mergeSort
            ((filtered_objects base r.compressed (canonical_search r.search)).enum)
            (List.enumLE (sortLE r.sort_order)))) := by
  have hgood0 : GoodVariants base cps (CachedListing.from_lists base cps) :=
    ⟨rfl, rfl, fun e he => absurd he (List.not_mem_nil e)⟩
  have hgood := run_requests_good base cps ops (CachedListing.from_lists base cps) 0 hgood0
  refine ⟨(serve_variant_spec base cps _ r hgood).1, serve_variant_idem _ r, ?_, ?_, ?_, ?_, ?_⟩
  · by_cases hc : r.compressed = none ∧ searchTruthy (canonical_search r.search) = false
    · have hp : objectPred r.compressed (canonical_search r.search) = fun _ => true := by
        funext obj
        simp [objectPred, hc.1, hc.2]
      simp only [filtered_objects, if_pos hc, hp, List.filter_true]
    · simp only [filtered_objects, if_neg hc]
  · exact List.mergeSort_enum.symm
  · exact List.mergeSort_perm _ _
  · exact List.sorted_mergeSort (sortLE_trans r.sort_order) (sortLE_total r.sort_order) _
  · intro i j x y hsub hxy hyx
    refine List.sublist_mergeSort
      (fun a b c => List.enumLE_trans (sortLE_trans r.sort_order) a b c)
      (fun a b => List.enumLE_total (sortLE_total r.sort_order) a b)
      ?_ hsub
    exact List.pairwise_pair.mpr
      (enumLE_of_tie (sortLE r.sort_order) i j x y hxy hyx
        (Nat.le_of_lt (enum_pair_lt _ i j x y hsub)))

def c2obj1 : LogicalObject :=
  ⟨"notes.txt", 4096, 4096, false, 5, "notes.txt"⟩

def c2obj2 : LogicalObject :=
  ⟨"app.zip", 120000, 60000, true, 6, "app.zip"⟩

def c2obj3 : LogicalObject :=
  ⟨"2024-01-01.log", 4096, 1024, false, 7, "2024-01-01.log"⟩

/-- Witness for `variant_requests_correct`: a base of three objects where
the first and third tie on `original_bytes`; a `size_desc` request is
served as the filter-and-sort of the base, and the tied pair — in base
order at indexes 0 and 2 — stays in that order in the sorted output. -/
theorem variant_requests_correct_witness :
    (List.Sublist [(0, c2obj1), (2, c2obj3)]
        ((filtered_objects [c2obj1, c2obj2, c2obj3] none (canonical_search none)).enum)
      ∧ sortLE ObjectSortOrder.size_desc c2obj1 c2obj3 = true
      ∧ sortLE ObjectSortOrder.size_desc c2obj3 c2obj1 = true)
    ∧ (serve_variant
        (run_requests (CachedListing.from_lists [c2obj1, c2obj2, c2obj3] ["releases/"]) 0 []).1
        ⟨ObjectSortOrder.size_desc, none, none⟩).1
        = filter_and_sort [c2obj1, c2obj2, c2obj3] ObjectSortOrder.size_desc none
            (canonical_search none)
    ∧ List.Sublist [(0, c2obj1), (2, c2obj3)]
        (List.mergeSort
          ((filtered_objects [c2obj1, c2obj2, c2obj3] none (canonical_search none)).enum)
          (List.enumLE (sortLE ObjectSortOrder.size_desc))) := by
  have h := variant_requests_correct [c2obj1, c2obj2, c2obj3] ["releases/"] []
    ⟨ObjectSortOrder.size_desc, none, none⟩
  exact ⟨⟨by decide, by decide, by decide⟩, h.1,
    h.2.2.2.2.2.2 0 2 c2obj1 c2obj3 (by decide) (by decide) (by decide)⟩
